import Mathlib

/-!
Verification of the intelligent file-matching and evaluation-aggregation engine
of the `documents` repository (`fern_nextjs_eval`).

The Python sources `src/matching.py`, `src/models.py` and
`src/universal_evaluator.py` are embedded shallowly:

* Python `float` scores are modelled as `ℚ` (exact field arithmetic; IEEE-754
  rounding is not modelled).
* Python `dict`s (which iterate in insertion order) are modelled as association
  lists `List (String × α)`; `dict.update` is `dictUpdate`, `dict` lookup is
  `dictLookup`.
* Python `set`s of strings are modelled as `List String` and only ever consumed
  through cardinalities of set intersections/unions (`interCard`, `unionCard`),
  which is all the source does with them.
* `difflib.SequenceMatcher(None, a, b).ratio()` is an external standard-library
  function; it is modelled as an explicit parameter `sim : String → String → ℚ`
  of the matcher.  Concrete theorems instantiate `sim` with functions that agree
  with `difflib` on every string pair the run actually consults (equal strings
  have `ratio = 1`; strings over disjoint alphabets have `ratio = 0`).
* Python constructors that `raise ValueError` in `__post_init__` are modelled as
  `Except String`-returning smart constructors.
-/

/-- `min(1.0, max(0.0, x))`, the clamping idiom used throughout `matching.py`. -/
def clamp01 (x : ℚ) : ℚ := min 1 (max 0 x)

/-- Python `dict` lookup on an insertion-ordered association list. -/
def dictLookup {α : Type} : List (String × α) → String → Option α
  | [], _ => none
  | p :: rest, k => if p.1 = k then some p.2 else dictLookup rest k

/-- Python `dict.update`: keys already present keep their position but receive
the new value; fresh keys are appended in order. -/
def dictUpdate {α : Type} (old new : List (String × α)) : List (String × α) :=
  old.map (fun kv => match dictLookup new kv.1 with
    | some v => (kv.1, v)
    | none => kv)
  ++ new.filter (fun kv => (dictLookup old kv.1).isNone)

/-- `len(set(a) & set(b))` for string lists standing in for Python sets. -/
def interCard (a b : List String) : ℕ := (a.dedup.filter (fun x => x ∈ b)).length

/-- `len(set(a) | set(b))` for string lists standing in for Python sets. -/
def unionCard (a b : List String) : ℕ := (a ++ b).dedup.length

/-- `FileAnalysis` (matching.py): the per-file characteristics consumed by the
matcher.  `fileName` is `file_path.name`; the association-list key holding an
analysis is `str(file_path)`.  `contentHash` is never read by the matcher and is
omitted. -/
structure FileAnalysis where
  fileName : String
  fileType : String
  componentName : Option String
  exports : List String
  imports : List String
  dependencies : List String
  complexityScore : ℚ
  functionalitySignature : String
deriving Repr, DecidableEq

/-- `FileMatchResult` (models.py).  `similarity_reasons` is diagnostic only per
the spec ("no semantic contract") and is omitted from the embedding. -/
structure FileMatchResult where
  golden_file : String
  generated_file : String
  confidence : ℚ
  match_strategy : String
deriving Repr, DecidableEq

/-- `FileMatchResult.__post_init__` (models.py lines 165-168): construction
raises unless `0.0 <= confidence <= 1.0`. -/
def mkFileMatchResult (g p : String) (c : ℚ) (strat : String) :
    Except String FileMatchResult :=
  if 0 ≤ c ∧ c ≤ 1 then .ok ⟨g, p, c, strat⟩
  else .error "Confidence must be between 0 and 1"

/-- `EvaluationResult` (models.py): the nine score fields.  The open-ended
`detailed_analysis` and `metadata` dicts carry no scoring contract and are
omitted. -/
structure EvaluationResult where
  overall_similarity : ℚ
  functional_equivalence : ℚ
  structural_similarity : ℚ
  style_consistency : ℚ
  complexity_delta : ℚ
  performance_impact : ℚ
  maintainability_score : ℚ
  accessibility_score : ℚ
  security_score : ℚ
deriving Repr, DecidableEq

/-- The validation loop of `EvaluationResult.__post_init__` (models.py lines
112-127): exactly the seven field names listed in `score_fields` are checked
against `[0.0, 1.0]`.  Neither `complexity_delta` nor `performance_impact`
appears in that list. -/
def EvaluationResult.validate (r : EvaluationResult) : Bool :=
  decide (0 ≤ r.overall_similarity ∧ r.overall_similarity ≤ 1) &&
  decide (0 ≤ r.functional_equivalence ∧ r.functional_equivalence ≤ 1) &&
  decide (0 ≤ r.structural_similarity ∧ r.structural_similarity ≤ 1) &&
  decide (0 ≤ r.style_consistency ∧ r.style_consistency ≤ 1) &&
  decide (0 ≤ r.maintainability_score ∧ r.maintainability_score ≤ 1) &&
  decide (0 ≤ r.accessibility_score ∧ r.accessibility_score ≤ 1) &&
  decide (0 ≤ r.security_score ∧ r.security_score ≤ 1)

/-- `EvaluationResult.__init__` (models.py lines 64-99): assigns the fields in
the constructor's parameter order, then runs `__post_init__`, which raises
`ValueError` when `validate` fails. -/
def mkEvaluationResult (os fe ss sc cd pi ms as_ sec : ℚ) :
    Except String EvaluationResult :=
  let r : EvaluationResult := ⟨os, fe, ss, sc, cd, pi, ms, as_, sec⟩
  if r.validate then .ok r
  else .error "score field must be a number between 0.0 and 1.0"

/-- C3 nearby statement, stated as a reusable fact: `validate` checks exactly
the seven listed fields. -/
theorem validate_iff (r : EvaluationResult) :
    r.validate = true ↔
      (0 ≤ r.overall_similarity ∧ r.overall_similarity ≤ 1) ∧
      (0 ≤ r.functional_equivalence ∧ r.functional_equivalence ≤ 1) ∧
      (0 ≤ r.structural_similarity ∧ r.structural_similarity ≤ 1) ∧
      (0 ≤ r.style_consistency ∧ r.style_consistency ≤ 1) ∧
      (0 ≤ r.maintainability_score ∧ r.maintainability_score ≤ 1) ∧
      (0 ≤ r.accessibility_score ∧ r.accessibility_score ≤ 1) ∧
      (0 ≤ r.security_score ∧ r.security_score ≤ 1) := by
  simp [EvaluationResult.validate, and_assoc]

/-- C3, counterexample: constructing an `EvaluationResult` with
`performance_impact = 2.0` (all other fields `0.0`) SUCCEEDS, although the
claim says construction must fail whenever `performance_impact` lies outside
`[0, 1]`.  `__post_init__` checks only seven fields; `performance_impact` is
not among them. -/
theorem evaluationResult_performance_impact_unchecked :
    (mkEvaluationResult 0 0 0 0 0 2 0 0 0).isOk = true := by decide

/-- C3, amended: constructing an `EvaluationResult` fails fast exactly when one
of the seven checked fields — `overall_similarity`, `functional_equivalence`,
`structural_similarity`, `style_consistency`, `maintainability_score`,
`accessibility_score`, `security_score` — lies outside `[0.0, 1.0]`; both
`complexity_delta` and `performance_impact` are exempt from the bound. -/
theorem evaluationResult_construction_bounds (os fe ss sc cd pi ms as_ sec : ℚ) :
    (mkEvaluationResult os fe ss sc cd pi ms as_ sec).isOk = true ↔
      (0 ≤ os ∧ os ≤ 1) ∧ (0 ≤ fe ∧ fe ≤ 1) ∧ (0 ≤ ss ∧ ss ≤ 1) ∧
      (0 ≤ sc ∧ sc ≤ 1) ∧ (0 ≤ ms ∧ ms ≤ 1) ∧ (0 ≤ as_ ∧ as_ ≤ 1) ∧
      (0 ≤ sec ∧ sec ≤ 1) := by
  simp only [mkEvaluationResult]
  rw [← validate_iff ⟨os, fe, ss, sc, cd, pi, ms, as_, sec⟩]
  split
  next h => simp [Except.isOk, Except.toBool, h]
  next h => simp [Except.isOk, Except.toBool, h]

/-! ## The matcher (`matching.py`, class `IntelligentFileMatcher`) -/

/-- `_calculate_signature_similarity` (matching.py lines 528-561).  Note the
export term: the numerator is the cardinality of the set intersection, the
denominator is `max(len(golden.exports), len(generated.exports))` on the raw
lists. -/
def sigScore (sim : String → String → ℚ) (g x : FileAnalysis) : ℚ :=
  let s1 : ℚ := match g.componentName, x.componentName with
    | some a, some b => sim a b * (3 / 10)
    | _, _ => 0
  let s2 : ℚ :=
    if g.exports ≠ [] ∧ x.exports ≠ [] then
      ((interCard g.exports x.exports : ℚ) /
        ((max g.exports.length x.exports.length : ℕ) : ℚ)) * (3 / 10)
    else 0
  let s3 : ℚ :=
    if g.dependencies ≠ [] ∧ x.dependencies ≠ [] then
      ((interCard g.dependencies x.dependencies : ℚ) /
        ((unionCard g.dependencies x.dependencies : ℕ) : ℚ)) * (2 / 10)
    else 0
  let s4 : ℚ := if g.fileType = x.fileType then 2 / 10 else 0
  min (s1 + s2 + s3 + s4) 1

/-- Modelled from the SPEC's words (spec §4.1 pass 2, for comparison with
`sigScore` only): "Jaccard-like overlap of `exports` relative to the GOLDEN
file's export count (weight 0.3)" — i.e. the export denominator is
`len(golden.exports)`, not the max of the two lengths. -/
def sigScoreSpecWords (sim : String → String → ℚ) (g x : FileAnalysis) : ℚ :=
  let s1 : ℚ := match g.componentName, x.componentName with
    | some a, some b => sim a b * (3 / 10)
    | _, _ => 0
  let s2 : ℚ :=
    if g.exports ≠ [] ∧ x.exports ≠ [] then
      ((interCard g.exports x.exports : ℚ) / (g.exports.length : ℚ)) * (3 / 10)
    else 0
  let s3 : ℚ :=
    if g.dependencies ≠ [] ∧ x.dependencies ≠ [] then
      ((interCard g.dependencies x.dependencies : ℚ) /
        ((unionCard g.dependencies x.dependencies : ℕ) : ℚ)) * (2 / 10)
    else 0
  let s4 : ℚ := if g.fileType = x.fileType then 2 / 10 else 0
  min (s1 + s2 + s3 + s4) 1

/-- The per-candidate score of `_match_by_functionality` (matching.py lines
246-254): signature similarity, boosted by 1.2 when file types match; the
enclosing loop then clamps it. -/
def funcScore (sim : String → String → ℚ) (g x : FileAnalysis) : ℚ :=
  let s := sim g.functionalitySignature x.functionalitySignature
  if g.fileType = x.fileType then s * (12 / 10) else s

/-- `_calculate_content_similarity` (matching.py lines 563-592). -/
def contentScore (sim : String → String → ℚ) (g x : FileAnalysis) : ℚ :=
  let s1 : ℚ := sim g.functionalitySignature x.functionalitySignature * (4 / 10)
  let s2 : ℚ := (1 - |g.complexityScore - x.complexityScore|) * (2 / 10)
  let s3 : ℚ :=
    if g.imports ≠ [] ∧ x.imports ≠ [] then
      ((interCard g.imports x.imports : ℚ) /
        ((unionCard g.imports x.imports : ℕ) : ℚ)) * (2 / 10)
    else 0
  let s4 : ℚ := if g.fileType = x.fileType then 2 / 10 else 0
  min (s1 + s2 + s3 + s4) 1

/-- Inner loop of `_match_by_exact_name` (matching.py lines 161-174): the first
generated file, in insertion order, that is not yet used and whose
`file_path.name` equals the golden file's name. -/
def findExact (used : List String) (goldenName : String) :
    List (String × FileAnalysis) → Option String
  | [] => none
  | p :: rest =>
    if p.1 ∈ used then findExact used goldenName rest
    else if p.2.fileName = goldenName then some p.1
    else findExact used goldenName rest

/-- `_match_by_exact_name` (matching.py lines 149-176), with the pass-local
`matches` dict and the shared `used` set threaded explicitly. -/
def exactNamePass (generated : List (String × FileAnalysis)) :
    List (String × FileAnalysis) → List (String × FileMatchResult) →
    List String → List (String × FileMatchResult) × List String
  | [], m, used => (m, used)
  | g :: rest, m, used =>
    match findExact used g.2.fileName generated with
    | some p =>
        exactNamePass generated rest
          (m ++ [(g.1, ⟨g.1, p, 1, "exact_name"⟩)]) (used ++ [p])
    | none => exactNamePass generated rest m used

/-- The best-candidate scan shared by passes 2-4 (e.g. matching.py lines
191-207): skip used generated files, clamp the score to `[0,1]`, keep a
candidate only if its clamped score strictly exceeds both the threshold and
the best so far (so the first maximum wins). -/
def findBest (score : FileAnalysis → ℚ) (theta : ℚ) (used : List String) :
    List (String × FileAnalysis) → Option (String × ℚ) → Option (String × ℚ)
  | [], best => best
  | p :: rest, best =>
    if p.1 ∈ used then findBest score theta used rest best
    else
      let c := clamp01 (score p.2)
      let bc : ℚ := match best with | some b => b.2 | none => 0
      if theta < c ∧ bc < c then findBest score theta used rest (some (p.1, c))
      else findBest score theta used rest best

/-- The outer loop shared by `_match_by_component_signature`,
`_match_by_functionality` and `_match_by_content_similarity` (matching.py
lines 187-223, 234-277, 288-323).  Note that the
`if golden_path in matches: continue` guard in the source consults the
PASS-LOCAL `matches` dict (always empty at that point for distinct golden
keys), which is embedded faithfully here as a lookup in the local accumulator
`m`. -/
def passLoop (score : FileAnalysis → FileAnalysis → ℚ) (theta : ℚ)
    (strat : String) (generated : List (String × FileAnalysis)) :
    List (String × FileAnalysis) → List (String × FileMatchResult) →
    List String → List (String × FileMatchResult) × List String
  | [], m, used => (m, used)
  | g :: rest, m, used =>
    if (dictLookup m g.1).isSome then passLoop score theta strat generated rest m used
    else
      match findBest (score g.2) theta used generated none with
      | some pc =>
          passLoop score theta strat generated rest
            (m ++ [(g.1, ⟨g.1, pc.1, pc.2, strat⟩)]) (used ++ [pc.1])
      | none => passLoop score theta strat generated rest m used

/-- `_match_fallback` (matching.py lines 325-365): `avail` is the mutable
`available_generated` dict; a consumed generated file is deleted from it.  The
guard again consults the pass-local `matches`. -/
def fallbackLoop :
    List (String × FileAnalysis) → List (String × FileMatchResult) →
    List (String × FileAnalysis) → List (String × FileMatchResult)
  | [], m, _ => m
  | g :: rest, m, avail =>
    if (dictLookup m g.1).isSome ∨ avail = [] then fallbackLoop rest m avail
    else
      match avail.filter (fun p => p.2.fileType = g.2.fileType) with
      | p :: _ =>
          fallbackLoop rest (m ++ [(g.1, ⟨g.1, p.1, 3 / 10, "fallback"⟩)])
            (avail.filter (fun q => q.1 ≠ p.1))
      | [] =>
        match avail with
        | q :: _ =>
            fallbackLoop rest (m ++ [(g.1, ⟨g.1, q.1, 1 / 10, "fallback"⟩)])
              (avail.filter (fun r => r.1 ≠ q.1))
        | [] => fallbackLoop rest m avail

/-- `IntelligentFileMatcher.match_files` (matching.py lines 61-116): the five
strategy passes in order, sharing the `used_generated_files` set, each result
merged into `matches` via `dict.update`. -/
def matchFiles (sim : String → String → ℚ)
    (golden generated : List (String × FileAnalysis)) :
    List (String × FileMatchResult) :=
  let r1 := exactNamePass generated golden [] []
  let r2 := passLoop (sigScore sim) (7 / 10) "component_signature" generated golden [] r1.2
  let r3 := passLoop (funcScore sim) (6 / 10) "functionality" generated golden [] r2.2
  let r4 := passLoop (contentScore sim) (5 / 10) "content_similarity" generated golden [] r3.2
  let m5 := fallbackLoop golden [] (generated.filter (fun p => p.1 ∉ r4.2))
  dictUpdate (dictUpdate (dictUpdate (dictUpdate r1.1 r2.1) r3.1) r4.1) m5

/-! ## Concrete runs

`simZero` and `simEq` stand in for `difflib.SequenceMatcher.ratio` in concrete
runs.  `simZero` is used only in runs that never consult the similarity
function.  `simEq` agrees with `difflib` on every pair the runs below actually
consult: `ratio(a, a) = 1.0` for equal strings, and `ratio(a, b) = 0.0` for
strings over disjoint alphabets (no common characters means no matching
blocks). -/

def simZero : String → String → ℚ := fun _ _ => 0

def simEq : String → String → ℚ := fun a b => if a = b then 1 else 0

/-- Golden file for the C1 run: named `App.tsx`, a react component with
functionality signature `"aaa"`. -/
def gC1 : FileAnalysis :=
  ⟨"App.tsx", "react_component", none, [], [], [], 0, "aaa"⟩

/-- Generated file `x` for the C1 run: also named `App.tsx` (exact-name hit). -/
def xC1 : FileAnalysis :=
  ⟨"App.tsx", "react_component", none, [], [], [], 0, "bbb"⟩

/-- Generated file `y` for the C1 run: a stylesheet sharing nothing with the
golden file (signature over a disjoint alphabet, different type, complexity at
the opposite end). -/
def yC1 : FileAnalysis :=
  ⟨"Other.css", "style", none, [], [], [], 1, "zzz"⟩

def goldenC1 : List (String × FileAnalysis) := [("g", gC1)]

def genC1 : List (String × FileAnalysis) := [("x", xC1), ("y", yC1)]

/-- C1: the claim says the entry recorded for each golden file is the one
produced by the FIRST strategy that matched it, and later passes never
reconsider matched golden files.  The code disagrees: the
`if golden_path in matches: continue` guards of passes 2-5 consult the
pass-local `matches` dict (which never contains the current key), so the
fallback pass re-matches golden `"g"` — already matched to `"x"` by the
exact-name pass at confidence 1.0 — to the leftover stylesheet `"y"`, and
`matches.update` then overwrites the exact-name entry.  The final map records
the LAST strategy's entry (fallback, `"y"`, confidence 0.1), a direct
contradiction of the claim on this input. -/
theorem matchFiles_last_strategy_overwrites :
    dictLookup (matchFiles simEq goldenC1 genC1) "g" =
      some ⟨"g", "y", 1 / 10, "fallback"⟩ ∧
    (exactNamePass genC1 goldenC1 [] []).1 =
      [("g", ⟨"g", "x", 1, "exact_name"⟩)] := by
  constructor
  · simp [matchFiles, exactNamePass, findExact, passLoop, findBest, fallbackLoop,
      dictUpdate, dictLookup, clamp01, sigScore, funcScore, contentScore, interCard,
      unionCard, goldenC1, genC1, gC1, xC1, yC1, simEq, min_def, max_def]
  · simp [exactNamePass, findExact, goldenC1, genC1, gC1, xC1]

/-- Golden files for the C2 counterexample run. -/
def goldenC2 : List (String × FileAnalysis) :=
  [("a", ⟨"Button.tsx", "react_component", none, [], [], [], 0, "aaa"⟩),
   ("b", ⟨"Card.tsx", "react_component", none, [], [], [], 0, "bbb"⟩)]

/-- A single generated file, consumed by golden `"a"` via exact name. -/
def genC2 : List (String × FileAnalysis) :=
  [("x", ⟨"Button.tsx", "react_component", none, [], [], [], 0, "ccc"⟩)]

/-- C2, counterexample: the generated-file set is non-empty, yet golden file
`"b"` receives NO match result — the only generated file is consumed by golden
`"a"` (exact name), the fallback pool is empty when `"b"` is reached, and
matching exclusivity (pigeonhole) makes full coverage impossible whenever
golden files outnumber generated files.  (`simZero` is never consulted: every
generated file is already used before the similarity passes run.) -/
theorem matchFiles_coverage_fails :
    genC2 ≠ [] ∧
    dictLookup (matchFiles simZero goldenC2 genC2) "a" =
      some ⟨"a", "x", 1, "exact_name"⟩ ∧
    dictLookup (matchFiles simZero goldenC2 genC2) "b" = none := by
  refine ⟨by decide, ?_, ?_⟩ <;>
    simp [matchFiles, exactNamePass, findExact, passLoop, findBest, fallbackLoop,
      dictUpdate, dictLookup, clamp01, sigScore, funcScore, contentScore, interCard,
      unionCard, goldenC2, genC2, simZero, min_def, max_def]

/-- Golden file for the C4 counterexample: one export `"a"`. -/
def gC4 : FileAnalysis :=
  ⟨"A.tsx", "react_component", none, ["a"], [], [], 0, "s"⟩

/-- Generated candidate for the C4 counterexample: exports `"a"` and `"b"`. -/
def xC4 : FileAnalysis :=
  ⟨"B.tsx", "react_component", none, ["a", "b"], [], [], 0, "t"⟩

/-- C4, counterexample: the claim divides the common-export count by the GOLDEN
file's export count, but `_calculate_signature_similarity` divides by
`max(len(golden.exports), len(generated.exports))`.  With golden exports
`{"a"}` and generated exports `{"a","b"}` (names absent, no dependencies,
matching file type) the code scores `0.3·(1/2) + 0.2 = 0.35` while the claim's
formula gives `0.3·(1/1) + 0.2 = 0.5`. -/
theorem sigScore_export_denominator_differs :
    sigScore simZero gC4 xC4 = 7 / 20 ∧
    sigScoreSpecWords simZero gC4 xC4 = 1 / 2 ∧
    (7 / 20 : ℚ) ≠ 1 / 2 := by
  refine ⟨?_, ?_, by norm_num⟩ <;>
    simp [sigScore, sigScoreSpecWords, gC4, xC4, simZero, interCard, unionCard,
      List.dedup, min_def, max_def] <;> norm_num

/-! ## Library lemmas about the embedding's building blocks -/

theorem clamp01_nonneg (x : ℚ) : 0 ≤ clamp01 x := by
  simp [clamp01, le_min_iff, le_max_iff]

theorem clamp01_le_one (x : ℚ) : clamp01 x ≤ 1 := by
  simp [clamp01]

theorem dictLookup_eq_none {α : Type} (l : List (String × α)) (k : String) :
    dictLookup l k = none ↔ k ∉ l.map Prod.fst := by
  induction l with
  | nil => simp [dictLookup]
  | cons p rest ih =>
    by_cases h : p.1 = k
    · simp [dictLookup, h]
    · rw [List.map_cons]
      simp only [dictLookup, if_neg h, List.mem_cons, ih]
      have hne : ¬k = p.1 := fun hh => h hh.symm
      tauto

theorem dictLookup_mem {α : Type} {l : List (String × α)} {k : String} {v : α}
    (h : dictLookup l k = some v) : (k, v) ∈ l := by
  induction l with
  | nil => simp [dictLookup] at h
  | cons p rest ih =>
    by_cases hk : p.1 = k
    · simp only [dictLookup, if_pos hk] at h
      refine List.mem_cons.mpr (Or.inl ?_)
      cases p with
      | mk a b =>
        simp only at hk h
        cases hk
        cases h
        rfl
    · simp [dictLookup, hk] at h
      exact List.mem_cons_of_mem _ (ih h)

theorem mem_dictUpdate {α : Type} {old new : List (String × α)} {e : String × α}
    (h : e ∈ dictUpdate old new) : e ∈ old ∨ e ∈ new := by
  unfold dictUpdate at h
  rcases List.mem_append.mp h with h | h
  · rcases List.mem_map.mp h with ⟨kv, hkv, he⟩
    rcases hlk : dictLookup new kv.1 with _ | v
    · left
      rw [hlk] at he
      simpa [← he] using hkv
    · right
      rw [hlk] at he
      rw [← he]
      exact dictLookup_mem hlk
  · exact Or.inr (List.mem_of_mem_filter h)

theorem dictUpdate_ne_nil {α : Type} {old new : List (String × α)}
    (h : old ≠ [] ∨ new ≠ []) : dictUpdate old new ≠ [] := by
  rcases old with _ | ⟨p, rest⟩
  · rcases h with h | h
    · exact absurd rfl h
    · unfold dictUpdate
      simpa [dictLookup] using h
  · unfold dictUpdate
    simp

theorem dictUpdate_keys {α : Type} (old new : List (String × α)) :
    (dictUpdate old new).map Prod.fst =
      old.map Prod.fst ++
        (new.filter (fun kv => (dictLookup old kv.1).isNone)).map Prod.fst := by
  unfold dictUpdate
  rw [List.map_append, List.map_map]
  congr 1
  apply List.map_congr_left
  intro kv _
  simp only [Function.comp_apply]
  rcases h : dictLookup new kv.1 with _ | v
  · simp [h]
  · simp [h]

theorem dictUpdate_keys_nodup {α : Type} {old new : List (String × α)}
    (ho : (old.map Prod.fst).Nodup) (hn : (new.map Prod.fst).Nodup) :
    ((dictUpdate old new).map Prod.fst).Nodup := by
  rw [dictUpdate_keys]
  refine List.Nodup.append ho ?_ ?_
  · exact hn.sublist (List.Sublist.map _ (List.filter_sublist _))
  · intro k hk1 hk2
    rcases List.mem_map.mp hk2 with ⟨kv, hkv, he⟩
    have hmem := List.mem_filter.mp hkv
    have : dictLookup old kv.1 = none := by
      rcases hd : dictLookup old kv.1 with _ | v
      · rfl
      · rw [hd] at hmem
        simpa using hmem.2
    rw [← he] at hk1
    exact absurd hk1 ((dictLookup_eq_none old kv.1).mp this)

/-- A helper fact about `dictUpdate`: the merged map stays pairwise-`R` when
both inputs are, the inputs are cross-`R`, `R` is symmetric, and the old map
has no duplicate keys. -/
theorem dictUpdate_pairwise {α : Type} {R : (String × α) → (String × α) → Prop}
    (hsymm : ∀ a b, R a b → R b a)
    {old new : List (String × α)}
    (hko : (old.map Prod.fst).Nodup)
    (h1 : old.Pairwise R) (h2 : new.Pairwise R)
    (hcross : ∀ a ∈ old, ∀ b ∈ new, R a b) :
    (dictUpdate old new).Pairwise R := by
  have hsym : Symmetric R := fun a b h => hsymm a b h
  have hkeys : old.Pairwise (fun a b => a.1 ≠ b.1) := List.pairwise_map.mp hko
  have hmapval : ∀ kv : String × α,
      (match dictLookup new kv.1 with
        | some v => (kv.1, v)
        | none => kv) = kv ∨
      ∃ v, dictLookup new kv.1 = some v ∧
        (match dictLookup new kv.1 with
          | some v => (kv.1, v)
          | none => kv) = (kv.1, v) := by
    intro kv
    rcases h : dictLookup new kv.1 with _ | v
    · left; simp [h]
    · right; exact ⟨v, rfl, by simp [h]⟩
  unfold dictUpdate
  rw [List.pairwise_append]
  refine ⟨?_, h2.sublist (List.filter_sublist _), ?_⟩
  · rw [List.pairwise_map]
    have hcomb := h1.and hkeys
    refine hcomb.imp_of_mem ?_
    intro a b ha hb hab
    rcases hmapval a with hva | ⟨va, hla, hva⟩ <;>
      rcases hmapval b with hvb | ⟨vb, hlb, hvb⟩
    · rw [hva, hvb]; exact hab.1
    · rw [hva, hvb]
      exact hcross a ha (b.1, vb) (dictLookup_mem hlb)
    · rw [hva, hvb]
      exact hsymm _ _ (hcross b hb (a.1, va) (dictLookup_mem hla))
    · rw [hva, hvb]
      refine h2.forall hsym (dictLookup_mem hla) (dictLookup_mem hlb) ?_
      intro hcontra
      injection hcontra with h1 h2
      exact hab.2 h1
  · intro a' ha' b hb
    rcases List.mem_map.mp ha' with ⟨a, ha, hfa⟩
    have hbmem := List.mem_filter.mp hb
    have hbnew : b ∈ new := hbmem.1
    have hbkey : dictLookup old b.1 = none := by
      rcases hd : dictLookup old b.1 with _ | v
      · rfl
      · rw [hd] at hbmem; simpa using hbmem.2
    rcases hmapval a with hva | ⟨va, hla, hva⟩
    · rw [hva] at hfa
      rw [← hfa]
      exact hcross a ha b hbnew
    · rw [hva] at hfa
      rw [← hfa]
      obtain ⟨b1, b2⟩ := b
      refine h2.forall hsym (dictLookup_mem hla) hbnew ?_
      intro hcontra
      injection hcontra with hab1 hab2
      have hbold : b1 ∉ old.map Prod.fst := (dictLookup_eq_none old b1).mp hbkey
      rw [← hab1] at hbold
      exact hbold (List.mem_map.mpr ⟨a, ha, rfl⟩)

theorem findExact_spec {used : List String} {nm : String} :
    ∀ {gens : List (String × FileAnalysis)} {p : String},
    findExact used nm gens = some p → p ∉ used ∧ p ∈ gens.map Prod.fst := by
  intro gens
  induction gens with
  | nil => intro p h; simp [findExact] at h
  | cons q rest ih =>
    intro p h
    rw [findExact] at h
    split_ifs at h with h1 h2
    · rcases ih h with ⟨hu, hm⟩
      exact ⟨hu, by simp [hm]⟩
    · injection h with h
      subst h
      exact ⟨h1, by simp⟩
    · rcases ih h with ⟨hu, hm⟩
      exact ⟨hu, by simp [hm]⟩

theorem findBest_some (score : FileAnalysis → ℚ) (theta : ℚ) (used : List String) :
    ∀ (gens : List (String × FileAnalysis)) (best : Option (String × ℚ))
      (pc : String × ℚ),
    findBest score theta used gens best = some pc →
    best = some pc ∨
      (pc.1 ∉ used ∧ theta < pc.2 ∧
        ∃ a, (pc.1, a) ∈ gens ∧ pc.2 = clamp01 (score a)) := by
  intro gens
  induction gens with
  | nil =>
    intro best pc h
    rw [findBest] at h
    exact Or.inl h
  | cons p rest ih =>
    intro best pc h
    simp only [findBest] at h
    split_ifs at h with h1 h2
    · rcases ih best pc h with h | ⟨hu, ht, a, ha, hc⟩
      · exact Or.inl h
      · exact Or.inr ⟨hu, ht, a, List.mem_cons_of_mem _ ha, hc⟩
    · rcases ih _ pc h with heq | ⟨hu, ht, a, ha, hc⟩
      · injection heq with heq
        refine Or.inr ?_
        rw [← heq]
        exact ⟨h1, h2.1, p.2, by simp, rfl⟩
      · exact Or.inr ⟨hu, ht, a, List.mem_cons_of_mem _ ha, hc⟩
    · rcases ih best pc h with h | ⟨hu, ht, a, ha, hc⟩
      · exact Or.inl h
      · exact Or.inr ⟨hu, ht, a, List.mem_cons_of_mem _ ha, hc⟩

theorem findBest_mono (score : FileAnalysis → ℚ) (theta : ℚ) (used : List String) :
    ∀ (gens : List (String × FileAnalysis)) (b : String × ℚ),
    ∃ pc, findBest score theta used gens (some b) = some pc ∧ b.2 ≤ pc.2 := by
  intro gens
  induction gens with
  | nil =>
    intro b
    exact ⟨b, by rw [findBest], le_refl _⟩
  | cons p rest ih =>
    intro b
    simp only [findBest]
    split_ifs with h1 h2
    · exact ih b
    · rcases ih (p.1, clamp01 (score p.2)) with ⟨pc, hpc, hle⟩
      exact ⟨pc, hpc, le_trans (le_of_lt h2.2) hle⟩
    · exact ih b

theorem findBest_ge (score : FileAnalysis → ℚ) (theta : ℚ) (used : List String)
    (htheta : 0 ≤ theta) :
    ∀ (gens : List (String × FileAnalysis)) (best : Option (String × ℚ))
      (q : String) (a : FileAnalysis),
    (q, a) ∈ gens → q ∉ used →
    clamp01 (score a) ≤ theta ∨
      ∃ pc, findBest score theta used gens best = some pc ∧
        clamp01 (score a) ≤ pc.2 := by
  intro gens
  induction gens with
  | nil =>
    intro best q a h
    simp at h
  | cons p rest ih =>
    intro best q a hmem hq
    rcases List.mem_cons.mp hmem with heq | hrest
    · have hq1 : p.1 = q := by rw [← heq]
      have ha2 : p.2 = a := by rw [← heq]
      simp only [findBest]
      split_ifs with h1 h2
      · rw [hq1] at h1
        exact absurd h1 hq
      · rcases findBest_mono score theta used rest (p.1, clamp01 (score p.2)) with
          ⟨pc, hpc, hle⟩
        right
        exact ⟨pc, hpc, by rw [← ha2]; exact hle⟩
      · rcases not_and_or.mp h2 with h | h
        · left
          rw [← ha2]
          exact le_of_not_lt h
        · have hcb := le_of_not_lt h
          rcases best with _ | b
          · left
            rw [← ha2]
            exact le_trans (by simpa using hcb) htheta
          · rcases findBest_mono score theta used rest b with ⟨pc, hpc, hle⟩
            right
            exact ⟨pc, hpc, by rw [← ha2]; exact le_trans (by simpa using hcb) hle⟩
    · simp only [findBest]
      split_ifs with h1 h2
      · exact ih best q a hrest hq
      · exact ih (some (p.1, clamp01 (score p.2))) q a hrest hq
      · exact ih best q a hrest hq

/-- "No two entries consume the same generated file" as a binary relation. -/
def gensDistinct (a b : String × FileMatchResult) : Prop :=
  a.2.generated_file ≠ b.2.generated_file

theorem gensDistinct_symm (a b : String × FileMatchResult) :
    gensDistinct a b → gensDistinct b a := fun h => Ne.symm h

theorem exactNamePass_mem (gens : List (String × FileAnalysis)) :
    ∀ (gs : List (String × FileAnalysis)) (m : List (String × FileMatchResult))
      (used : List String) (e : String × FileMatchResult),
    e ∈ (exactNamePass gens gs m used).1 →
    e ∈ m ∨ (e.2.confidence = 1 ∧ e.2.match_strategy = "exact_name") := by
  intro gs
  induction gs with
  | nil =>
    intro m used e h
    rw [exactNamePass] at h
    exact Or.inl h
  | cons g rest ih =>
    intro m used e h
    rcases hf : findExact used g.2.fileName gens with _ | p <;>
      simp only [exactNamePass, hf] at h
    · exact ih m used e h
    · rcases ih _ _ e h with hm | hnew
      · rcases List.mem_append.mp hm with hm | hm
        · exact Or.inl hm
        · right
          have he : e = (g.1, ⟨g.1, p, 1, "exact_name"⟩) := by simpa using hm
          rw [he]
          exact ⟨rfl, rfl⟩
      · exact Or.inr hnew

theorem exactNamePass_used (gens : List (String × FileAnalysis)) :
    ∀ (gs : List (String × FileAnalysis)) (m : List (String × FileMatchResult))
      (used : List String),
    ∃ ext, (exactNamePass gens gs m used).2 = used ++ ext := by
  intro gs
  induction gs with
  | nil =>
    intro m used
    exact ⟨[], by rw [exactNamePass]; simp⟩
  | cons g rest ih =>
    intro m used
    rcases hf : findExact used g.2.fileName gens with _ | p <;>
      simp only [exactNamePass, hf]
    · exact ih m used
    · rcases ih (m ++ [(g.1, ⟨g.1, p, 1, "exact_name"⟩)]) (used ++ [p]) with ⟨ext, hext⟩
      exact ⟨[p] ++ ext, by rw [hext, List.append_assoc]⟩

theorem exactNamePass_count (gens : List (String × FileAnalysis)) :
    ∀ (gs : List (String × FileAnalysis)) (m : List (String × FileMatchResult))
      (used : List String),
    (exactNamePass gens gs m used).1.length + used.length =
      m.length + (exactNamePass gens gs m used).2.length := by
  intro gs
  induction gs with
  | nil =>
    intro m used
    rw [exactNamePass]
  | cons g rest ih =>
    intro m used
    rcases hf : findExact used g.2.fileName gens with _ | p <;>
      simp only [exactNamePass, hf]
    · exact ih m used
    · have := ih (m ++ [(g.1, ⟨g.1, p, 1, "exact_name"⟩)]) (used ++ [p])
      simp only [List.length_append, List.length_cons, List.length_nil] at this ⊢
      omega

theorem exactNamePass_inv (gens : List (String × FileAnalysis)) :
    ∀ (gs : List (String × FileAnalysis)) (m : List (String × FileMatchResult))
      (used : List String),
    (∀ e ∈ m, e.2.generated_file ∈ used) → m.Pairwise gensDistinct →
    (∀ e ∈ (exactNamePass gens gs m used).1,
        e.2.generated_file ∈ (exactNamePass gens gs m used).2) ∧
    (exactNamePass gens gs m used).1.Pairwise gensDistinct ∧
    (∀ e ∈ (exactNamePass gens gs m used).1, e ∈ m ∨ e.2.generated_file ∉ used) := by
  intro gs
  induction gs with
  | nil =>
    intro m used h1 h2
    rw [exactNamePass]
    exact ⟨h1, h2, fun e he => Or.inl he⟩
  | cons g rest ih =>
    intro m used h1 h2
    rcases hf : findExact used g.2.fileName gens with _ | p <;>
      simp only [exactNamePass, hf]
    · exact ih m used h1 h2
    · have hp := findExact_spec hf
      have h1' : ∀ e ∈ m ++ [(g.1, ⟨g.1, p, 1, "exact_name"⟩)],
          e.2.generated_file ∈ used ++ [p] := by
        intro e he
        rcases List.mem_append.mp he with he | he
        · exact List.mem_append_left _ (h1 e he)
        · have : e = (g.1, ⟨g.1, p, 1, "exact_name"⟩) := by simpa using he
          rw [this]
          simp
      have h2' : (m ++ [(g.1, (⟨g.1, p, 1, "exact_name"⟩ : FileMatchResult))]).Pairwise
          gensDistinct := by
        rw [List.pairwise_append]
        refine ⟨h2, List.pairwise_singleton _ _, ?_⟩
        intro a ha b hb
        have : b = (g.1, ⟨g.1, p, 1, "exact_name"⟩) := by simpa using hb
        rw [this]
        show a.2.generated_file ≠ p
        intro hcontra
        exact hp.1 (hcontra ▸ h1 a ha)
      rcases ih _ _ h1' h2' with ⟨c1, c2, c3⟩
      refine ⟨c1, c2, ?_⟩
      intro e he
      rcases c3 e he with hm | hnu
      · rcases List.mem_append.mp hm with hm | hm
        · exact Or.inl hm
        · right
          have : e = (g.1, ⟨g.1, p, 1, "exact_name"⟩) := by simpa using hm
          rw [this]
          exact hp.1
      · right
        intro hcontra
        exact hnu (List.mem_append_left _ hcontra)

theorem passLoop_mem (score : FileAnalysis → FileAnalysis → ℚ) (theta : ℚ)
    (strat : String) (gens : List (String × FileAnalysis)) :
    ∀ (gs : List (String × FileAnalysis)) (m : List (String × FileMatchResult))
      (used : List String) (e : String × FileMatchResult),
    e ∈ (passLoop score theta strat gens gs m used).1 →
    e ∈ m ∨ (theta < e.2.confidence ∧ e.2.confidence ≤ 1 ∧ 0 ≤ e.2.confidence ∧
      e.2.match_strategy = strat) := by
  intro gs
  induction gs with
  | nil =>
    intro m used e h
    rw [passLoop] at h
    exact Or.inl h
  | cons g rest ih =>
    intro m used e h
    by_cases hg : (dictLookup m g.1).isSome = true
    · rw [passLoop, if_pos hg] at h
      exact ih m used e h
    · rw [passLoop, if_neg hg] at h
      rcases hfb : findBest (score g.2) theta used gens none with _ | pc <;>
        simp only [hfb] at h
      · exact ih m used e h
      · rcases ih _ _ e h with hm | hnew
        · rcases List.mem_append.mp hm with hm | hm
          · exact Or.inl hm
          · right
            have he : e = (g.1, ⟨g.1, pc.1, pc.2, strat⟩) := by simpa using hm
            rcases findBest_some (score g.2) theta used gens none pc hfb with
              hcontra | ⟨_, ht, a, _, hc⟩
            · exact absurd hcontra (by simp)
            · rw [he]
              refine ⟨ht, ?_, ?_, rfl⟩
              · rw [hc]; exact clamp01_le_one _
              · rw [hc]; exact clamp01_nonneg _
        · exact Or.inr hnew

theorem passLoop_used (score : FileAnalysis → FileAnalysis → ℚ) (theta : ℚ)
    (strat : String) (gens : List (String × FileAnalysis)) :
    ∀ (gs : List (String × FileAnalysis)) (m : List (String × FileMatchResult))
      (used : List String),
    ∃ ext, (passLoop score theta strat gens gs m used).2 = used ++ ext := by
  intro gs
  induction gs with
  | nil =>
    intro m used
    exact ⟨[], by rw [passLoop]; simp⟩
  | cons g rest ih =>
    intro m used
    by_cases hg : (dictLookup m g.1).isSome = true
    · rw [passLoop, if_pos hg]
      exact ih m used
    · rw [passLoop, if_neg hg]
      rcases hfb : findBest (score g.2) theta used gens none with _ | pc <;>
        simp only [hfb]
      · exact ih m used
      · rcases ih (m ++ [(g.1, ⟨g.1, pc.1, pc.2, strat⟩)]) (used ++ [pc.1]) with ⟨ext, hext⟩
        exact ⟨[pc.1] ++ ext, by rw [hext, List.append_assoc]⟩

theorem passLoop_count (score : FileAnalysis → FileAnalysis → ℚ) (theta : ℚ)
    (strat : String) (gens : List (String × FileAnalysis)) :
    ∀ (gs : List (String × FileAnalysis)) (m : List (String × FileMatchResult))
      (used : List String),
    (passLoop score theta strat gens gs m used).1.length + used.length =
      m.length + (passLoop score theta strat gens gs m used).2.length := by
  intro gs
  induction gs with
  | nil =>
    intro m used
    rw [passLoop]
  | cons g rest ih =>
    intro m used
    by_cases hg : (dictLookup m g.1).isSome = true
    · rw [passLoop, if_pos hg]
      exact ih m used
    · rw [passLoop, if_neg hg]
      rcases hfb : findBest (score g.2) theta used gens none with _ | pc <;>
        simp only [hfb]
      · exact ih m used
      · have := ih (m ++ [(g.1, ⟨g.1, pc.1, pc.2, strat⟩)]) (used ++ [pc.1])
        simp only [List.length_append, List.length_cons, List.length_nil] at this ⊢
        omega

theorem passLoop_inv (score : FileAnalysis → FileAnalysis → ℚ) (theta : ℚ)
    (strat : String) (gens : List (String × FileAnalysis)) :
    ∀ (gs : List (String × FileAnalysis)) (m : List (String × FileMatchResult))
      (used : List String),
    (∀ e ∈ m, e.2.generated_file ∈ used) → m.Pairwise gensDistinct →
    (∀ e ∈ (passLoop score theta strat gens gs m used).1,
        e.2.generated_file ∈ (passLoop score theta strat gens gs m used).2) ∧
    (passLoop score theta strat gens gs m used).1.Pairwise gensDistinct ∧
    (∀ e ∈ (passLoop score theta strat gens gs m used).1,
        e ∈ m ∨ e.2.generated_file ∉ used) := by
  intro gs
  induction gs with
  | nil =>
    intro m used h1 h2
    rw [passLoop]
    exact ⟨h1, h2, fun e he => Or.inl he⟩
  | cons g rest ih =>
    intro m used h1 h2
    by_cases hg : (dictLookup m g.1).isSome = true
    · rw [passLoop, if_pos hg]
      exact ih m used h1 h2
    · rw [passLoop, if_neg hg]
      rcases hfb : findBest (score g.2) theta used gens none with _ | pc <;>
        simp only [hfb]
      · exact ih m used h1 h2
      · rcases findBest_some (score g.2) theta used gens none pc hfb with
          hcontra | ⟨hpu, _, _, _, _⟩
        · exact absurd hcontra (by simp)
        · have h1' : ∀ e ∈ m ++ [(g.1, (⟨g.1, pc.1, pc.2, strat⟩ : FileMatchResult))],
              e.2.generated_file ∈ used ++ [pc.1] := by
            intro e he
            rcases List.mem_append.mp he with he | he
            · exact List.mem_append_left _ (h1 e he)
            · have : e = (g.1, ⟨g.1, pc.1, pc.2, strat⟩) := by simpa using he
              rw [this]
              simp
          have h2' : (m ++ [(g.1, (⟨g.1, pc.1, pc.2, strat⟩ : FileMatchResult))]).Pairwise
              gensDistinct := by
            rw [List.pairwise_append]
            refine ⟨h2, List.pairwise_singleton _ _, ?_⟩
            intro a ha b hb
            have : b = (g.1, ⟨g.1, pc.1, pc.2, strat⟩) := by simpa using hb
            rw [this]
            show a.2.generated_file ≠ pc.1
            intro hcontra
            exact hpu (hcontra ▸ h1 a ha)
          rcases ih _ _ h1' h2' with ⟨c1, c2, c3⟩
          refine ⟨c1, c2, ?_⟩
          intro e he
          rcases c3 e he with hm | hnu
          · rcases List.mem_append.mp hm with hm | hm
            · exact Or.inl hm
            · right
              have : e = (g.1, ⟨g.1, pc.1, pc.2, strat⟩) := by simpa using hm
              rw [this]
              exact hpu
          · right
            intro hcontra
            exact hnu (List.mem_append_left _ hcontra)

theorem fallbackLoop_cons (g : String × FileAnalysis)
    (rest : List (String × FileAnalysis)) (m : List (String × FileMatchResult))
    (avail : List (String × FileAnalysis)) :
    fallbackLoop (g :: rest) m avail =
      if (dictLookup m g.1).isSome ∨ avail = [] then fallbackLoop rest m avail
      else
        match avail.filter (fun p => p.2.fileType = g.2.fileType) with
        | p :: _ =>
            fallbackLoop rest (m ++ [(g.1, ⟨g.1, p.1, 3 / 10, "fallback"⟩)])
              (avail.filter (fun q => q.1 ≠ p.1))
        | [] =>
          match avail with
          | q :: _ =>
              fallbackLoop rest (m ++ [(g.1, ⟨g.1, q.1, 1 / 10, "fallback"⟩)])
                (avail.filter (fun r => r.1 ≠ q.1))
          | [] => fallbackLoop rest m avail := by
  rw [fallbackLoop.eq_def]

theorem fallbackLoop_mem :
    ∀ (gs : List (String × FileAnalysis)) (m : List (String × FileMatchResult))
      (avail : List (String × FileAnalysis)) (e : String × FileMatchResult),
    e ∈ fallbackLoop gs m avail →
    e ∈ m ∨ ((e.2.confidence = 3 / 10 ∨ e.2.confidence = 1 / 10) ∧
      e.2.match_strategy = "fallback") := by
  intro gs
  induction gs with
  | nil =>
    intro m avail e h
    rw [fallbackLoop] at h
    exact Or.inl h
  | cons g rest ih =>
    intro m avail e h
    by_cases hg : (dictLookup m g.1).isSome = true ∨ avail = []
    · rw [fallbackLoop_cons, if_pos hg] at h
      exact ih m avail e h
    · rw [fallbackLoop_cons, if_neg hg] at h
      rcases hfil : avail.filter (fun p => p.2.fileType = g.2.fileType) with _ | ⟨p, t⟩ <;>
        simp only [hfil] at h
      · rcases havail : avail with _ | ⟨q, t2⟩ <;> simp only [havail] at h
        · exact ih m [] e h
        · rcases ih _ _ e h with hm | hnew
          · rcases List.mem_append.mp hm with hm | hm
            · exact Or.inl hm
            · right
              have : e = (g.1, ⟨g.1, q.1, 1 / 10, "fallback"⟩) := by simpa using hm
              rw [this]
              exact ⟨Or.inr rfl, rfl⟩
          · exact Or.inr hnew
      · rcases ih _ _ e h with hm | hnew
        · rcases List.mem_append.mp hm with hm | hm
          · exact Or.inl hm
          · right
            have : e = (g.1, ⟨g.1, p.1, 3 / 10, "fallback"⟩) := by simpa using hm
            rw [this]
            exact ⟨Or.inl rfl, rfl⟩
        · exact Or.inr hnew

theorem fallbackLoop_sub :
    ∀ (gs : List (String × FileAnalysis)) (m : List (String × FileMatchResult))
      (avail : List (String × FileAnalysis)) (e : String × FileMatchResult),
    e ∈ m → e ∈ fallbackLoop gs m avail := by
  intro gs
  induction gs with
  | nil =>
    intro m avail e h
    rw [fallbackLoop]
    exact h
  | cons g rest ih =>
    intro m avail e h
    by_cases hg : (dictLookup m g.1).isSome = true ∨ avail = []
    · rw [fallbackLoop_cons, if_pos hg]
      exact ih m avail e h
    · rw [fallbackLoop_cons, if_neg hg]
      rcases hfil : avail.filter (fun p => p.2.fileType = g.2.fileType) with _ | ⟨p, t⟩ <;>
        simp only [hfil]
      · rcases havail : avail with _ | ⟨q, t2⟩ <;> simp only [havail]
        · exact ih m [] e h
        · exact ih _ _ e (List.mem_append_left _ h)
      · exact ih _ _ e (List.mem_append_left _ h)

theorem fallbackLoop_inv :
    ∀ (gs : List (String × FileAnalysis)) (m : List (String × FileMatchResult))
      (avail : List (String × FileAnalysis)),
    m.Pairwise gensDistinct →
    (∀ e ∈ m, e.2.generated_file ∉ avail.map Prod.fst) →
    (fallbackLoop gs m avail).Pairwise gensDistinct ∧
    (∀ e ∈ fallbackLoop gs m avail, e ∈ m ∨ e.2.generated_file ∈ avail.map Prod.fst) := by
  intro gs
  induction gs with
  | nil =>
    intro m avail h1 h2
    rw [fallbackLoop]
    exact ⟨h1, fun e he => Or.inl he⟩
  | cons g rest ih =>
    intro m avail h1 h2
    by_cases hg : (dictLookup m g.1).isSome = true ∨ avail = []
    · rw [fallbackLoop_cons, if_pos hg]
      exact ih m avail h1 h2
    · rw [fallbackLoop_cons, if_neg hg]
      rcases hfil : avail.filter (fun p => p.2.fileType = g.2.fileType) with _ | ⟨p, t⟩ <;>
        simp only [hfil]
      · rcases havail : avail with _ | ⟨q, t2⟩ <;> simp only [havail] at h2 ⊢
        · refine (ih m [] h1 ?_).imp id ?_
          · intro e _
            simp
          · intro hc e he
            rcases hc e he with hm | hmem
            · exact Or.inl hm
            · simp at hmem
        · -- pick the head q of avail at confidence 1/10
          have hqmem : q.1 ∈ (q :: t2).map Prod.fst := by simp
          have h1' : (m ++ [(g.1, (⟨g.1, q.1, 1 / 10, "fallback"⟩ : FileMatchResult))]).Pairwise
              gensDistinct := by
            rw [List.pairwise_append]
            refine ⟨h1, List.pairwise_singleton _ _, ?_⟩
            intro a ha b hb
            have : b = (g.1, ⟨g.1, q.1, 1 / 10, "fallback"⟩) := by simpa using hb
            rw [this]
            show a.2.generated_file ≠ q.1
            intro hcontra
            exact h2 a ha (hcontra ▸ hqmem)
          have h2' : ∀ e ∈ m ++ [(g.1, (⟨g.1, q.1, 1 / 10, "fallback"⟩ : FileMatchResult))],
              e.2.generated_file ∉
                ((q :: t2).filter (fun r => r.1 ≠ q.1)).map Prod.fst := by
            intro e he hk
            rcases List.mem_map.mp hk with ⟨kv, hkv, hke⟩
            have hkv' := List.mem_filter.mp hkv
            rcases List.mem_append.mp he with he | he
            · exact h2 e he (List.mem_map.mpr ⟨kv, hkv'.1, hke⟩)
            · have heq : e = (g.1, ⟨g.1, q.1, 1 / 10, "fallback"⟩) := by simpa using he
              rw [heq] at hke
              simp only at hke
              rw [hke] at hkv'
              simpa using hkv'.2
          rcases ih _ _ h1' h2' with ⟨c1, c2⟩
          refine ⟨c1, ?_⟩
          intro e he
          rcases c2 e he with hm | hmem
          · rcases List.mem_append.mp hm with hm | hm
            · exact Or.inl hm
            · right
              have : e = (g.1, ⟨g.1, q.1, 1 / 10, "fallback"⟩) := by simpa using hm
              rw [this]
              exact hqmem
          · right
            rcases List.mem_map.mp hmem with ⟨kv, hkv, hke⟩
            have hkv' := List.mem_filter.mp hkv
            exact List.mem_map.mpr ⟨kv, hkv'.1, hke⟩
      · -- pick the first type match p at confidence 3/10
        have hpmem : p.1 ∈ avail.map Prod.fst := by
          have : p ∈ avail.filter (fun r => r.2.fileType = g.2.fileType) := by
            rw [hfil]
            exact List.mem_cons_self _ _
          exact List.mem_map.mpr ⟨p, List.mem_of_mem_filter this, rfl⟩
        have h1' : (m ++ [(g.1, (⟨g.1, p.1, 3 / 10, "fallback"⟩ : FileMatchResult))]).Pairwise
            gensDistinct := by
          rw [List.pairwise_append]
          refine ⟨h1, List.pairwise_singleton _ _, ?_⟩
          intro a ha b hb
          have : b = (g.1, ⟨g.1, p.1, 3 / 10, "fallback"⟩) := by simpa using hb
          rw [this]
          show a.2.generated_file ≠ p.1
          intro hcontra
          exact h2 a ha (hcontra ▸ hpmem)
        have h2' : ∀ e ∈ m ++ [(g.1, (⟨g.1, p.1, 3 / 10, "fallback"⟩ : FileMatchResult))],
            e.2.generated_file ∉
              (avail.filter (fun r => r.1 ≠ p.1)).map Prod.fst := by
          intro e he hk
          rcases List.mem_map.mp hk with ⟨kv, hkv, hke⟩
          have hkv' := List.mem_filter.mp hkv
          rcases List.mem_append.mp he with he | he
          · exact h2 e he (List.mem_map.mpr ⟨kv, hkv'.1, hke⟩)
          · have heq : e = (g.1, ⟨g.1, p.1, 3 / 10, "fallback"⟩) := by simpa using he
            rw [heq] at hke
            simp only at hke
            rw [hke] at hkv'
            simpa using hkv'.2
        rcases ih _ _ h1' h2' with ⟨c1, c2⟩
        refine ⟨c1, ?_⟩
        intro e he
        rcases c2 e he with hm | hmem
        · rcases List.mem_append.mp hm with hm | hm
          · exact Or.inl hm
          · right
            have : e = (g.1, ⟨g.1, p.1, 3 / 10, "fallback"⟩) := by simpa using hm
            rw [this]
            exact hpmem
        · right
          rcases List.mem_map.mp hmem with ⟨kv, hkv, hke⟩
          have hkv' := List.mem_filter.mp hkv
          exact List.mem_map.mpr ⟨kv, hkv'.1, hke⟩

theorem passLoop_keys (score : FileAnalysis → FileAnalysis → ℚ) (theta : ℚ)
    (strat : String) (gens : List (String × FileAnalysis)) :
    ∀ (gs : List (String × FileAnalysis)) (m : List (String × FileMatchResult))
      (used : List String),
    (m.map Prod.fst).Nodup →
    ((passLoop score theta strat gens gs m used).1.map Prod.fst).Nodup := by
  intro gs
  induction gs with
  | nil =>
    intro m used h
    rw [passLoop]
    exact h
  | cons g rest ih =>
    intro m used h
    by_cases hg : (dictLookup m g.1).isSome = true
    · rw [passLoop, if_pos hg]
      exact ih m used h
    · rw [passLoop, if_neg hg]
      rcases hfb : findBest (score g.2) theta used gens none with _ | pc <;>
        simp only [hfb]
      · exact ih m used h
      · refine ih _ _ ?_
        have hnone : dictLookup m g.1 = none := by
          rcases hd : dictLookup m g.1 with _ | v
          · rfl
          · rw [hd] at hg
            simp at hg
        have hnot : g.1 ∉ m.map Prod.fst := (dictLookup_eq_none m g.1).mp hnone
        rw [List.map_append]
        refine List.Nodup.append h (by simp) ?_
        intro k hk1 hk2
        simp at hk2
        rw [hk2] at hk1
        exact hnot hk1

theorem fallbackLoop_keys :
    ∀ (gs : List (String × FileAnalysis)) (m : List (String × FileMatchResult))
      (avail : List (String × FileAnalysis)),
    (m.map Prod.fst).Nodup →
    ((fallbackLoop gs m avail).map Prod.fst).Nodup := by
  intro gs
  induction gs with
  | nil =>
    intro m avail h
    rw [fallbackLoop]
    exact h
  | cons g rest ih =>
    intro m avail h
    by_cases hg : (dictLookup m g.1).isSome = true ∨ avail = []
    · rw [fallbackLoop_cons, if_pos hg]
      exact ih m avail h
    · rw [fallbackLoop_cons, if_neg hg]
      have hnone : dictLookup m g.1 = none := by
        rcases hd : dictLookup m g.1 with _ | v
        · rfl
        · exact absurd (Or.inl (by rw [hd]; rfl)) hg
      have hnot : g.1 ∉ m.map Prod.fst := (dictLookup_eq_none m g.1).mp hnone
      have happ : ∀ r : FileMatchResult, ((m ++ [(g.1, r)]).map Prod.fst).Nodup := by
        intro r
        rw [List.map_append]
        refine List.Nodup.append h (by simp) ?_
        intro k hk1 hk2
        simp at hk2
        rw [hk2] at hk1
        exact hnot hk1
      rcases hfil : avail.filter (fun p => p.2.fileType = g.2.fileType) with _ | ⟨p, t⟩ <;>
        simp only [hfil]
      · rcases havail : avail with _ | ⟨q, t2⟩ <;> simp only [havail]
        · exact ih m [] h
        · exact ih _ _ (happ _)
      · exact ih _ _ (happ _)

theorem exactNamePass_keys (gens : List (String × FileAnalysis)) :
    ∀ (gs : List (String × FileAnalysis)) (m : List (String × FileMatchResult))
      (used : List String),
    (m.map Prod.fst).Nodup → (gs.map Prod.fst).Nodup →
    (∀ k ∈ m.map Prod.fst, k ∉ gs.map Prod.fst) →
    ((exactNamePass gens gs m used).1.map Prod.fst).Nodup := by
  intro gs
  induction gs with
  | nil =>
    intro m used h _ _
    rw [exactNamePass]
    exact h
  | cons g rest ih =>
    intro m used hm hgs hdisj
    have hgs' : (rest.map Prod.fst).Nodup := by
      rw [List.map_cons] at hgs
      exact hgs.of_cons
    have hghead : g.1 ∉ rest.map Prod.fst := by
      rw [List.map_cons] at hgs
      exact (List.nodup_cons.mp hgs).1
    rcases hf : findExact used g.2.fileName gens with _ | p <;>
      simp only [exactNamePass, hf]
    · refine ih m used hm hgs' ?_
      intro k hk
      have := hdisj k hk
      rw [List.map_cons] at this
      intro hc
      exact this (List.mem_cons_of_mem _ hc)
    · refine ih _ _ ?_ hgs' ?_
      · rw [List.map_append]
        refine List.Nodup.append hm (by simp) ?_
        intro k hk1 hk2
        simp at hk2
        rw [hk2] at hk1
        exact hdisj g.1 hk1 (by rw [List.map_cons]; exact List.mem_cons_self _ _)
      · intro k hk
        rw [List.map_append] at hk
        rcases List.mem_append.mp hk with hk | hk
        · have := hdisj k hk
          rw [List.map_cons] at this
          intro hc
          exact this (List.mem_cons_of_mem _ hc)
        · simp at hk
          rw [hk]
          exact hghead

theorem mkFileMatchResult_isOk (a b : String) (c : ℚ) (s : String) :
    (mkFileMatchResult a b c s).isOk = true ↔ (0 ≤ c ∧ c ≤ 1) := by
  unfold mkFileMatchResult
  split
  next h => simp [Except.isOk, Except.toBool, h]
  next h => simp [Except.isOk, Except.toBool, h]

/-- Every entry of the map returned by `match_files` has confidence in
`[1/10, 1]`: the exact-name pass records 1.0, the three scored passes record a
clamped score strictly above their thresholds (0.7, 0.6, 0.5), and the fallback
records 0.3 or 0.1. -/
theorem matchFiles_mem_conf (sim : String → String → ℚ)
    (golden generated : List (String × FileAnalysis)) :
    ∀ e ∈ matchFiles sim golden generated,
      1 / 10 ≤ e.2.confidence ∧ e.2.confidence ≤ 1 := by
  intro e he
  simp only [matchFiles] at he
  rcases mem_dictUpdate he with h | h5
  · rcases mem_dictUpdate h with h | h4
    · rcases mem_dictUpdate h with h | h3
      · rcases mem_dictUpdate h with h1 | h2
        · rcases exactNamePass_mem _ _ _ _ _ h1 with hc | hc
          · simp at hc
          · rw [hc.1]
            norm_num
        · rcases passLoop_mem _ _ _ _ _ _ _ _ h2 with hc | hc
          · simp at hc
          · exact ⟨le_trans (by norm_num) (le_of_lt hc.1), hc.2.1⟩
      · rcases passLoop_mem _ _ _ _ _ _ _ _ h3 with hc | hc
        · simp at hc
        · exact ⟨le_trans (by norm_num) (le_of_lt hc.1), hc.2.1⟩
    · rcases passLoop_mem _ _ _ _ _ _ _ _ h4 with hc | hc
      · simp at hc
      · exact ⟨le_trans (by norm_num) (le_of_lt hc.1), hc.2.1⟩
  · rcases fallbackLoop_mem _ _ _ _ h5 with hc | hc
    · simp at hc
    · rcases hc.1 with hc1 | hc1 <;> rw [hc1] <;> norm_num

/-- C6: for all matching strategies and all inputs, every `FileMatchResult` in
the map returned by `match_files` has confidence in `[0, 1]` (so constructing
it never trips the `__post_init__` bound check), and the `FileMatchResult`
constructor accepts a confidence exactly when it lies in `[0, 1]` — the error
branch is unreachable on matcher-produced values. -/
theorem matchFiles_confidence_bounds (sim : String → String → ℚ)
    (golden generated : List (String × FileAnalysis)) :
    (∀ e ∈ matchFiles sim golden generated,
      0 ≤ e.2.confidence ∧ e.2.confidence ≤ 1 ∧
      (mkFileMatchResult e.2.golden_file e.2.generated_file e.2.confidence
        e.2.match_strategy).isOk = true) ∧
    (∀ (a b : String) (c : ℚ) (s : String),
      (mkFileMatchResult a b c s).isOk = true ↔ (0 ≤ c ∧ c ≤ 1)) := by
  refine ⟨?_, mkFileMatchResult_isOk⟩
  intro e he
  rcases matchFiles_mem_conf sim golden generated e he with ⟨h1, h2⟩
  have h0 : 0 ≤ e.2.confidence := le_trans (by norm_num) h1
  exact ⟨h0, h2, (mkFileMatchResult_isOk _ _ _ _).mpr ⟨h0, h2⟩⟩

/-- C6 witness: the theorem applied to the concrete run of `matchFiles` on
`goldenC1`/`genC1`, at the fallback entry that run produces. -/
theorem matchFiles_confidence_bounds_witness :
    0 ≤ ((1 : ℚ) / 10) ∧ (1 : ℚ) / 10 ≤ 1 ∧
    (mkFileMatchResult "g" "y" (1 / 10) "fallback").isOk = true :=
  (matchFiles_confidence_bounds simEq goldenC1 genC1).1
    ("g", ⟨"g", "y", 1 / 10, "fallback"⟩)
    (by simp [matchFiles, exactNamePass, findExact, passLoop, findBest, fallbackLoop,
      dictUpdate, dictLookup, clamp01, sigScore, funcScore, contentScore, interCard,
      unionCard, goldenC1, genC1, gC1, xC1, yC1, simEq, min_def, max_def])

theorem mem_keys_filter_not (u : List String) (l : List (String × FileAnalysis))
    (k : String) :
    k ∈ (l.filter (fun p => p.1 ∉ u)).map Prod.fst → k ∉ u := by
  intro hk
  rcases List.mem_map.mp hk with ⟨kv, hkv, hke⟩
  have h := List.mem_filter.mp hkv
  rw [← hke]
  simpa using h.2

/-- C7: in any run of `match_files`, no generated file path appears as the
`generated_file` of two different entries of the returned map — the shared
`used` set makes passes 1-4 consume each generated file at most once, the
fallback pool only ever contains unconsumed files and deletes each file it
hands out, and `dict.update` never duplicates a value across distinct keys.
The golden analyses form a Python dict, so their keys are distinct
(hypothesis `hg`). -/
theorem matchFiles_generated_exclusive (sim : String → String → ℚ)
    (golden generated : List (String × FileAnalysis))
    (hg : (golden.map Prod.fst).Nodup) :
    (matchFiles sim golden generated).Pairwise gensDistinct ∧
    ((matchFiles sim golden generated).map Prod.fst).Nodup := by
  have hdef : matchFiles sim golden generated =
      dictUpdate
        (dictUpdate
          (dictUpdate
            (dictUpdate (exactNamePass generated golden [] []).1
              (passLoop (sigScore sim) (7 / 10) "component_signature" generated golden []
                (exactNamePass generated golden [] []).2).1)
            (passLoop (funcScore sim) (6 / 10) "functionality" generated golden []
              (passLoop (sigScore sim) (7 / 10) "component_signature" generated golden []
                (exactNamePass generated golden [] []).2).2).1)
          (passLoop (contentScore sim) (5 / 10) "content_similarity" generated golden []
            (passLoop (funcScore sim) (6 / 10) "functionality" generated golden []
              (passLoop (sigScore sim) (7 / 10) "component_signature" generated golden []
                (exactNamePass generated golden [] []).2).2).2).1)
        (fallbackLoop golden []
          (generated.filter (fun p =>
            p.1 ∉ (passLoop (contentScore sim) (5 / 10) "content_similarity" generated golden []
              (passLoop (funcScore sim) (6 / 10) "functionality" generated golden []
                (passLoop (sigScore sim) (7 / 10) "component_signature" generated golden []
                  (exactNamePass generated golden [] []).2).2).2).2))) := rfl
  set P1 := exactNamePass generated golden [] [] with hP1
  set P2 := passLoop (sigScore sim) (7 / 10) "component_signature" generated golden []
    P1.2 with hP2
  set P3 := passLoop (funcScore sim) (6 / 10) "functionality" generated golden []
    P2.2 with hP3
  set P4 := passLoop (contentScore sim) (5 / 10) "content_similarity" generated golden []
    P3.2 with hP4
  set avail0 := generated.filter (fun p => p.1 ∉ P4.2) with havail0
  set m5 := fallbackLoop golden [] avail0 with hm5
  -- per-pass invariants, starting from empty accumulators
  have hnil1 : ∀ e ∈ ([] : List (String × FileMatchResult)),
      e.2.generated_file ∈ ([] : List String) := by simp
  have hnil1' : ∀ e ∈ ([] : List (String × FileMatchResult)),
      e.2.generated_file ∈ P1.2 := by simp
  have hnil2' : ∀ e ∈ ([] : List (String × FileMatchResult)),
      e.2.generated_file ∈ P2.2 := by simp
  have hnil3' : ∀ e ∈ ([] : List (String × FileMatchResult)),
      e.2.generated_file ∈ P3.2 := by simp
  have hnilp : ([] : List (String × FileMatchResult)).Pairwise gensDistinct :=
    List.Pairwise.nil
  obtain ⟨F1, Q1, _⟩ := exactNamePass_inv generated golden [] [] hnil1 hnilp
  obtain ⟨F2, Q2, D2⟩ := passLoop_inv (sigScore sim) (7 / 10) "component_signature"
    generated golden [] P1.2 hnil1' hnilp
  obtain ⟨F3, Q3, D3⟩ := passLoop_inv (funcScore sim) (6 / 10) "functionality"
    generated golden [] P2.2 hnil2' hnilp
  obtain ⟨F4, Q4, D4⟩ := passLoop_inv (contentScore sim) (5 / 10) "content_similarity"
    generated golden [] P3.2 hnil3' hnilp
  have hm5nil : ∀ e ∈ ([] : List (String × FileMatchResult)),
      e.2.generated_file ∉ avail0.map Prod.fst := by simp
  obtain ⟨Q5, D5⟩ := fallbackLoop_inv golden [] avail0 hnilp hm5nil
  -- used-set extension across passes
  obtain ⟨x2, hx2⟩ := passLoop_used (sigScore sim) (7 / 10) "component_signature"
    generated golden [] P1.2
  obtain ⟨x3, hx3⟩ := passLoop_used (funcScore sim) (6 / 10) "functionality"
    generated golden [] P2.2
  obtain ⟨x4, hx4⟩ := passLoop_used (contentScore sim) (5 / 10) "content_similarity"
    generated golden [] P3.2
  have hsub12 : ∀ k, k ∈ P1.2 → k ∈ P2.2 := by
    intro k hk
    rw [hx2]
    exact List.mem_append_left _ hk
  have hsub23 : ∀ k, k ∈ P2.2 → k ∈ P3.2 := by
    intro k hk
    rw [hx3]
    exact List.mem_append_left _ hk
  have hsub34 : ∀ k, k ∈ P3.2 → k ∈ P4.2 := by
    intro k hk
    rw [hx4]
    exact List.mem_append_left _ hk
  -- keys of each pass output are distinct
  have K1 : (P1.1.map Prod.fst).Nodup :=
    exactNamePass_keys generated golden [] [] (by simp) hg (by simp)
  have K2 : (P2.1.map Prod.fst).Nodup :=
    passLoop_keys _ _ _ generated golden [] P1.2 (by simp)
  have K3 : (P3.1.map Prod.fst).Nodup :=
    passLoop_keys _ _ _ generated golden [] P2.2 (by simp)
  have K4 : (P4.1.map Prod.fst).Nodup :=
    passLoop_keys _ _ _ generated golden [] P3.2 (by simp)
  have K5 : (m5.map Prod.fst).Nodup := fallbackLoop_keys golden [] avail0 (by simp)
  -- accumulate through the dict.update chain
  have QM2 : (dictUpdate P1.1 P2.1).Pairwise gensDistinct := by
    refine dictUpdate_pairwise gensDistinct_symm K1 Q1 Q2 ?_
    intro a ha b hb
    show a.2.generated_file ≠ b.2.generated_file
    intro hcontra
    rcases D2 b hb with hbm | hbu
    · simp at hbm
    · exact hbu (hcontra ▸ F1 a ha)
  have KM2 : ((dictUpdate P1.1 P2.1).map Prod.fst).Nodup := dictUpdate_keys_nodup K1 K2
  have GM2 : ∀ e ∈ dictUpdate P1.1 P2.1, e.2.generated_file ∈ P2.2 := by
    intro e he
    rcases mem_dictUpdate he with h | h
    · exact hsub12 _ (F1 e h)
    · exact F2 e h
  have QM3 : (dictUpdate (dictUpdate P1.1 P2.1) P3.1).Pairwise gensDistinct := by
    refine dictUpdate_pairwise gensDistinct_symm KM2 QM2 Q3 ?_
    intro a ha b hb
    show a.2.generated_file ≠ b.2.generated_file
    intro hcontra
    rcases D3 b hb with hbm | hbu
    · simp at hbm
    · exact hbu (hcontra ▸ GM2 a ha)
  have KM3 : ((dictUpdate (dictUpdate P1.1 P2.1) P3.1).map Prod.fst).Nodup :=
    dictUpdate_keys_nodup KM2 K3
  have GM3 : ∀ e ∈ dictUpdate (dictUpdate P1.1 P2.1) P3.1,
      e.2.generated_file ∈ P3.2 := by
    intro e he
    rcases mem_dictUpdate he with h | h
    · exact hsub23 _ (GM2 e h)
    · exact F3 e h
  have QM4 : (dictUpdate (dictUpdate (dictUpdate P1.1 P2.1) P3.1) P4.1).Pairwise
      gensDistinct := by
    refine dictUpdate_pairwise gensDistinct_symm KM3 QM3 Q4 ?_
    intro a ha b hb
    show a.2.generated_file ≠ b.2.generated_file
    intro hcontra
    rcases D4 b hb with hbm | hbu
    · simp at hbm
    · exact hbu (hcontra ▸ GM3 a ha)
  have KM4 : ((dictUpdate (dictUpdate (dictUpdate P1.1 P2.1) P3.1) P4.1).map
      Prod.fst).Nodup := dictUpdate_keys_nodup KM3 K4
  have GM4 : ∀ e ∈ dictUpdate (dictUpdate (dictUpdate P1.1 P2.1) P3.1) P4.1,
      e.2.generated_file ∈ P4.2 := by
    intro e he
    rcases mem_dictUpdate he with h | h
    · exact hsub34 _ (GM3 e h)
    · exact F4 e h
  have QM5 : (dictUpdate (dictUpdate (dictUpdate (dictUpdate P1.1 P2.1) P3.1) P4.1)
      m5).Pairwise gensDistinct := by
    refine dictUpdate_pairwise gensDistinct_symm KM4 QM4 Q5 ?_
    intro a ha b hb
    show a.2.generated_file ≠ b.2.generated_file
    intro hcontra
    rcases D5 b hb with hbm | hbu
    · simp at hbm
    · have : b.2.generated_file ∉ P4.2 := mem_keys_filter_not P4.2 generated _ hbu
      exact this (hcontra ▸ GM4 a ha)
  have KM5 : ((dictUpdate (dictUpdate (dictUpdate (dictUpdate P1.1 P2.1) P3.1) P4.1)
      m5).map Prod.fst).Nodup := dictUpdate_keys_nodup KM4 K5
  rw [hdef]
  exact ⟨QM5, KM5⟩

/-- C7 witness: the theorem applied to the concrete two-generated-file run. -/
theorem matchFiles_generated_exclusive_witness :
    (matchFiles simEq goldenC1 genC1).Pairwise gensDistinct ∧
    ((matchFiles simEq goldenC1 genC1).map Prod.fst).Nodup :=
  matchFiles_generated_exclusive simEq goldenC1 genC1 (by simp [goldenC1])

theorem fallbackLoop_cons_ne_nil (g : String × FileAnalysis)
    (grest : List (String × FileAnalysis)) (avail : List (String × FileAnalysis))
    (hav : avail ≠ []) : fallbackLoop (g :: grest) [] avail ≠ [] := by
  rw [fallbackLoop_cons]
  have hguard : ¬((dictLookup ([] : List (String × FileMatchResult)) g.1).isSome = true ∨
      avail = []) := by
    simp [dictLookup, hav]
  rw [if_neg hguard]
  rcases hfil : avail.filter (fun p => p.2.fileType = g.2.fileType) with _ | ⟨p, t⟩ <;>
    simp only [hfil]
  · rcases havail : avail with _ | ⟨q, t2⟩
    · exact absurd havail hav
    · simp only [havail]
      exact List.ne_nil_of_mem
        (fallbackLoop_sub grest _ _ (g.1, ⟨g.1, q.1, 1 / 10, "fallback"⟩) (by simp))
  · exact List.ne_nil_of_mem
      (fallbackLoop_sub grest _ _ (g.1, ⟨g.1, p.1, 3 / 10, "fallback"⟩) (by simp))

/-- C2, amended: when both the golden and the generated analysis maps are
non-empty, `match_files` returns a non-empty map and every recorded match has
confidence at least 0.1; but full coverage of EVERY golden file is not
guaranteed — a golden file reached after the unconsumed generated pool is
exhausted receives no match (see the counterexample), which is forced by
matching exclusivity whenever golden files outnumber generated files. -/
theorem matchFiles_coverage_amended (sim : String → String → ℚ)
    (golden generated : List (String × FileAnalysis))
    (hgold : golden ≠ []) (hgen : generated ≠ []) :
    matchFiles sim golden generated ≠ [] ∧
    ∀ e ∈ matchFiles sim golden generated, 1 / 10 ≤ e.2.confidence := by
  refine ⟨?_, fun e he => (matchFiles_mem_conf sim golden generated e he).1⟩
  have hdef : matchFiles sim golden generated =
      dictUpdate
        (dictUpdate
          (dictUpdate
            (dictUpdate (exactNamePass generated golden [] []).1
              (passLoop (sigScore sim) (7 / 10) "component_signature" generated golden []
                (exactNamePass generated golden [] []).2).1)
            (passLoop (funcScore sim) (6 / 10) "functionality" generated golden []
              (passLoop (sigScore sim) (7 / 10) "component_signature" generated golden []
                (exactNamePass generated golden [] []).2).2).1)
          (passLoop (contentScore sim) (5 / 10) "content_similarity" generated golden []
            (passLoop (funcScore sim) (6 / 10) "functionality" generated golden []
              (passLoop (sigScore sim) (7 / 10) "component_signature" generated golden []
                (exactNamePass generated golden [] []).2).2).2).1)
        (fallbackLoop golden []
          (generated.filter (fun p =>
            p.1 ∉ (passLoop (contentScore sim) (5 / 10) "content_similarity" generated golden []
              (passLoop (funcScore sim) (6 / 10) "functionality" generated golden []
                (passLoop (sigScore sim) (7 / 10) "component_signature" generated golden []
                  (exactNamePass generated golden [] []).2).2).2).2))) := rfl
  set P1 := exactNamePass generated golden [] [] with hP1
  set P2 := passLoop (sigScore sim) (7 / 10) "component_signature" generated golden []
    P1.2 with hP2
  set P3 := passLoop (funcScore sim) (6 / 10) "functionality" generated golden []
    P2.2 with hP3
  set P4 := passLoop (contentScore sim) (5 / 10) "content_similarity" generated golden []
    P3.2 with hP4
  set avail0 := generated.filter (fun p => p.1 ∉ P4.2) with havail0
  rw [hdef]
  by_cases hav : avail0 = []
  · -- the pool is exhausted, so some earlier pass matched something
    have hall : ∀ p ∈ generated, p.1 ∈ P4.2 := by
      intro p hp
      have := List.filter_eq_nil_iff.mp hav p hp
      simpa using this
    obtain ⟨x, hx⟩ := List.exists_mem_of_ne_nil generated hgen
    have hxm : x.1 ∈ P4.2 := hall x hx
    have hlen4 : 0 < P4.2.length := List.length_pos.mpr (List.ne_nil_of_mem hxm)
    have c1 := exactNamePass_count generated golden [] []
    rw [← hP1] at c1
    have c2 := passLoop_count (sigScore sim) (7 / 10) "component_signature"
      generated golden [] P1.2
    rw [← hP2] at c2
    have c3 := passLoop_count (funcScore sim) (6 / 10) "functionality"
      generated golden [] P2.2
    rw [← hP3] at c3
    have c4 := passLoop_count (contentScore sim) (5 / 10) "content_similarity"
      generated golden [] P3.2
    rw [← hP4] at c4
    simp only [List.length_nil] at c1 c2 c3 c4
    have hone : P1.1 ≠ [] ∨ P2.1 ≠ [] ∨ P3.1 ≠ [] ∨ P4.1 ≠ [] := by
      by_contra hc
      push_neg at hc
      have l1 : P1.1.length = 0 := by rw [hc.1]; rfl
      have l2 : P2.1.length = 0 := by rw [hc.2.1]; rfl
      have l3 : P3.1.length = 0 := by rw [hc.2.2.1]; rfl
      have l4 : P4.1.length = 0 := by rw [hc.2.2.2]; rfl
      omega
    rcases hone with h | h | h | h
    · exact dictUpdate_ne_nil (Or.inl (dictUpdate_ne_nil (Or.inl (dictUpdate_ne_nil
        (Or.inl (dictUpdate_ne_nil (Or.inl h)))))))
    · exact dictUpdate_ne_nil (Or.inl (dictUpdate_ne_nil (Or.inl (dictUpdate_ne_nil
        (Or.inl (dictUpdate_ne_nil (Or.inr h)))))))
    · exact dictUpdate_ne_nil (Or.inl (dictUpdate_ne_nil (Or.inl (dictUpdate_ne_nil
        (Or.inr h)))))
    · exact dictUpdate_ne_nil (Or.inl (dictUpdate_ne_nil (Or.inr h)))
  · -- the pool is non-empty, so the fallback pass matches the first golden file
    rcases golden with _ | ⟨g, grest⟩
    · exact absurd rfl hgold
    · exact dictUpdate_ne_nil (Or.inr (fallbackLoop_cons_ne_nil g grest avail0 hav))

/-- C2 witness (for the amended statement): the concrete run with two golden
files and one generated file. -/
theorem matchFiles_coverage_amended_witness :
    matchFiles simZero goldenC2 genC2 ≠ [] ∧
    ∀ e ∈ matchFiles simZero goldenC2 genC2, 1 / 10 ≤ e.2.confidence :=
  matchFiles_coverage_amended simZero goldenC2 genC2 (by simp [goldenC2])
    (by simp [genC2])

/-- C4, amended: in the component-signature pass the score is
`_calculate_signature_similarity` (`sigScore`, whose export term divides the
common-export count by `max(len(golden.exports), len(generated.exports))`, not
by the golden file's export count); the candidate scan accepts a generated
file only if it is unconsumed and its clamped score strictly exceeds 0.7, the
recorded confidence is the clamped score of the accepted candidate and lies in
`(0.7, 1]`, and no unconsumed candidate scores higher. -/
theorem signaturePass_acceptance (sim : String → String → ℚ)
    (used : List String) (gens : List (String × FileAnalysis)) (g : FileAnalysis)
    (p : String) (c : ℚ)
    (h : findBest (sigScore sim g) (7 / 10) used gens none = some (p, c)) :
    p ∉ used ∧ 7 / 10 < c ∧ c ≤ 1 ∧
    (∃ a, (p, a) ∈ gens ∧ c = clamp01 (sigScore sim g a)) ∧
    (∀ q b, (q, b) ∈ gens → q ∉ used → clamp01 (sigScore sim g b) ≤ c) := by
  rcases findBest_some (sigScore sim g) (7 / 10) used gens none (p, c) h with
    hcontra | ⟨hu, ht, a, ha, hc⟩
  · simp at hcontra
  · dsimp only at hu ht ha hc
    refine ⟨hu, ht, by rw [hc]; exact clamp01_le_one _, ⟨a, ha, hc⟩, ?_⟩
    intro q b hqb hq
    rcases findBest_ge (sigScore sim g) (7 / 10) used (by norm_num) gens none q b hqb hq
      with hle | ⟨pc, hpc, hle⟩
    · exact le_trans hle (le_of_lt ht)
    · rw [h] at hpc
      injection hpc with heq
      rw [← heq] at hle
      exact hle

/-- Golden file for the C4 witness: everything lines up with `xW`. -/
def gW : FileAnalysis :=
  ⟨"W.tsx", "react_component", some "B", ["a"], [], ["react"], 0, "w"⟩

/-- Generated candidate for the C4 witness. -/
def xW : FileAnalysis :=
  ⟨"V.tsx", "react_component", some "B", ["a"], [], ["react"], 0, "v"⟩

/-- C4 witness: the acceptance theorem applied to a concrete scan in which the
single candidate scores exactly 1.0. -/
theorem signaturePass_acceptance_witness :
    "x" ∉ ([] : List String) ∧ (7 : ℚ) / 10 < 1 ∧ (1 : ℚ) ≤ 1 ∧
    (∃ a, ("x", a) ∈ [("x", xW)] ∧ (1 : ℚ) = clamp01 (sigScore simEq gW a)) ∧
    (∀ q b, (q, b) ∈ [("x", xW)] → q ∉ ([] : List String) →
      clamp01 (sigScore simEq gW b) ≤ 1) :=
  signaturePass_acceptance simEq [] [("x", xW)] gW "x" 1
    (by simp [findBest, clamp01, sigScore, gW, xW, simEq, interCard, unionCard,
      List.dedup, min_def, max_def]
        norm_num)

/-! ## The aggregator and batch ranker (`universal_evaluator.py`, `models.py`) -/

/-- Modelled from the spec: `safe_divide` lives in `src/utils.py`, which is not
among the provided sources.  Spec §4.4 describes the aggregate as
`Σ(score_i × confidence_i) / Σ(confidence_i); 0.0 if no files were evaluated
(avoids divide-by-zero)`, so the helper returns its default instead of dividing
by zero. -/
def safe_divide (num den default : ℚ) : ℚ := if den = 0 then default else num / den

/-- The loop of `_calculate_weighted_score`: collect
`(overall_similarity, confidence)` per file, where the
`file_matches[golden_file]` subscript raises `KeyError` when the key is
absent — modelled with `Option`. -/
def lookupPairs (file_matches : List (String × FileMatchResult)) :
    List (String × EvaluationResult) → Option (List (ℚ × ℚ))
  | [] => some []
  | kv :: rest =>
    match dictLookup file_matches kv.1 with
    | some mr =>
        (lookupPairs file_matches rest).map
          (fun ps => (kv.2.overall_similarity, mr.confidence) :: ps)
    | none => none

/-- `_calculate_weighted_score` (universal_evaluator.py lines 697-714):
`Σ(overall_similarity × confidence)` over `Σ(confidence)`, via `safe_divide`
with default 0.0; 0.0 immediately when `file_results` is empty. -/
def calculate_weighted_score (file_results : List (String × EvaluationResult))
    (file_matches : List (String × FileMatchResult)) : Option ℚ :=
  if file_results = [] then some 0
  else
    (lookupPairs file_matches file_results).map
      (fun pairs =>
        safe_divide ((pairs.map (fun p => p.1 * p.2)).sum)
          ((pairs.map Prod.snd).sum) 0)

/-- The spec's numerator `Σ(score_i × confidence_i)` (spec §4.4), written over
the same lookups the code performs. -/
def weightedSumSpec (file_results : List (String × EvaluationResult))
    (file_matches : List (String × FileMatchResult)) : ℚ :=
  (file_results.map (fun kv => kv.2.overall_similarity *
    (((dictLookup file_matches kv.1).map FileMatchResult.confidence).getD 0))).sum

/-- The spec's denominator `Σ(confidence_i)` (spec §4.4). -/
def weightTotalSpec (file_results : List (String × EvaluationResult))
    (file_matches : List (String × FileMatchResult)) : ℚ :=
  (file_results.map (fun kv =>
    (((dictLookup file_matches kv.1).map FileMatchResult.confidence).getD 0))).sum

/-- `_apply_strategy_adjustments` (universal_evaluator.py lines 387-403): the
tier-specific confidence discount; `direct` (and any unknown tier) leaves the
scores unchanged.  The metadata writes carry no scoring contract and are
omitted. -/
def apply_strategy_adjustments (result : EvaluationResult) (strategy : String)
    (match_confidence : ℚ) : EvaluationResult :=
  if strategy = "semantic" then
    { result with overall_similarity := result.overall_similarity * match_confidence }
  else if strategy = "structural" then
    { result with
        structural_similarity := result.structural_similarity * match_confidence }
  else if strategy = "functional" then
    { result with
        overall_similarity := result.overall_similarity * match_confidence,
        functional_equivalence := result.functional_equivalence * match_confidence }
  else result

/-- `_calculate_average_metric` (universal_evaluator.py lines 909-921): the
unweighted mean of a metric across file results, 0.0 for an empty collection. -/
def calculate_average_metric (vals : List ℚ) : ℚ :=
  if vals = [] then 0 else vals.sum / vals.length

/-- `np.mean` on a non-empty list (ℚ division by zero is 0, matching the
empty-input guard in the callers). -/
def listMean (scores : List ℚ) : ℚ := scores.sum / scores.length

/-- The square of `np.std(scores)`: the POPULATION variance (N denominator). -/
def popVar (scores : List ℚ) : ℚ :=
  ((scores.map (fun x => (x - listMean scores) ^ 2)).sum) / scores.length

/-- The square of `statistics.stdev(scores)`: the SAMPLE variance (N − 1
denominator). -/
def sampleVar (scores : List ℚ) : ℚ :=
  ((scores.map (fun x => (x - listMean scores) ^ 2)).sum) / ((scores.length : ℚ) - 1)

/-- `np.median` via a stable sort. -/
def medianQ (scores : List ℚ) : ℚ :=
  let s := scores.mergeSort (fun a b => decide (a ≤ b))
  if scores.length % 2 = 1 then s.getD (scores.length / 2) 0
  else (s.getD (scores.length / 2 - 1) 0 + s.getD (scores.length / 2) 0) / 2

def listMin : List ℚ → ℚ
  | [] => 0
  | x :: xs => xs.foldl min x

def listMax : List ℚ → ℚ
  | [] => 0
  | x :: xs => xs.foldl max x

/-- The summary-statistics record.  The source returns a dict with several
aliased keys (`std`/`std_dev`, `min`/`min_score`, ...); one field per concept
suffices here.  Because `√` is not rational, the standard-deviation entry is
stored SQUARED (`stdSq`): the dict's `std_dev` is `√stdSq`, and since `√` is
injective on non-negative rationals, two summaries report the same standard
deviation iff their `stdSq` agree. -/
structure SummaryStats where
  mean : ℚ
  median : ℚ
  stdSq : ℚ
  lo : ℚ
  hi : ℚ
deriving Repr, DecidableEq

/-- `UniversalCodeEvaluator._calculate_summary_statistics`
(universal_evaluator.py lines 477-513): all-zero for an empty list, otherwise
`np.mean` / `np.median` / `np.std` (population, N denominator) / `min` /
`max`. -/
def uce_summary_statistics (scores : List ℚ) : SummaryStats :=
  if scores = [] then ⟨0, 0, 0, 0, 0⟩
  else ⟨listMean scores, medianQ scores, popVar scores, listMin scores, listMax scores⟩

/-- `BatchEvaluationResult._calculate_summary_statistics` (models.py lines
490-503): `statistics.mean` / `statistics.median` / `statistics.stdev` (SAMPLE,
N − 1 denominator, `0.0` when N ≤ 1) / `min` / `max` over the ranking scores;
the `score_range` entry (max − min) is derivable from `lo`/`hi` and omitted. -/
def bes_summary_statistics (scores : List ℚ) : SummaryStats :=
  if scores = [] then ⟨0, 0, 0, 0, 0⟩
  else ⟨listMean scores, medianQ scores,
    (if 1 < scores.length then sampleVar scores else 0),
    listMin scores, listMax scores⟩

/-- The summary-statistics selection in `BatchEvaluationResult.__init__`
(models.py lines 434-446): a caller-provided dict is stored as-is; only when
none is provided (and model results exist) does the models.py sample-stdev
computation run. -/
def batchSummary (given : Option SummaryStats) (rankScores : List ℚ) : SummaryStats :=
  match given with
  | some s => s
  | none => bes_summary_statistics rankScores

structure BatchEvaluationResult where
  model_scores : List (String × ℚ)
  rankings : List (String × ℚ)
  summary : SummaryStats
  best_model : Option String
  worst_model : Option String

/-- `_create_batch_result` (universal_evaluator.py lines 454-475): rankings are
`sorted(model_scores.items(), key=score, reverse=True)` — a stable descending
sort; the summary statistics are ALWAYS computed by the evaluator's own
`_calculate_summary_statistics` and passed to `BatchEvaluationResult`, so the
models.py sample-stdev path is bypassed. -/
def create_batch_result (model_scores : List (String × ℚ)) : BatchEvaluationResult :=
  let rankings := model_scores.mergeSort (fun a b => decide (b.2 ≤ a.2))
  { model_scores := model_scores
    rankings := rankings
    summary := batchSummary (some (uce_summary_statistics (model_scores.map Prod.snd)))
      (rankings.map Prod.snd)
    best_model := rankings.head?.map Prod.fst
    worst_model := rankings.getLast?.map Prod.fst }

/-- `_evaluate_all_models` (universal_evaluator.py lines 405-434): one model's
full evaluation is an external call that may raise, modelled as
`evalModel : path → Except error score`; a model whose evaluation raises is
skipped (`continue`), not recorded as 0.0. -/
def evaluate_all_models (evalModel : String → Except String ℚ) :
    List (String × String) → List (String × ℚ)
  | [] => []
  | (nm, path) :: rest =>
    match evalModel path with
    | .ok s => (nm, s) :: evaluate_all_models evalModel rest
    | .error _ => evaluate_all_models evalModel rest

/-- `evaluate_batch` (universal_evaluator.py lines 100-127). -/
def evaluate_batch (evalModel : String → Except String ℚ)
    (models : List (String × String)) : BatchEvaluationResult :=
  if models = [] then create_batch_result []
  else create_batch_result (evaluate_all_models evalModel models)

theorem popVar_nil : popVar [] = 0 := by
  simp [popVar, listMean]

theorem popVar_singleton (x : ℚ) : popVar [x] = 0 := by
  simp [popVar, listMean]

/-- C5, amended: for every batch evaluation the summary statistics are produced
by `UniversalCodeEvaluator._calculate_summary_statistics`, whose standard
deviation is `np.std` — the POPULATION standard deviation (N denominator), not
the sample (N − 1) estimator; it is 0.0 when N ≤ 1.  The sample-stdev
computation in `BatchEvaluationResult._calculate_summary_statistics` is
bypassed because `_create_batch_result` always passes a precomputed
statistics dict.  (`stdSq` is the square of the reported standard deviation.) -/
theorem batch_std_is_population (model_scores : List (String × ℚ)) :
    (create_batch_result model_scores).summary.stdSq =
      popVar (model_scores.map Prod.snd) ∧
    (model_scores.length ≤ 1 → (create_batch_result model_scores).summary.stdSq = 0) := by
  constructor
  · by_cases h : model_scores.map Prod.snd = []
    · simp [create_batch_result, batchSummary, uce_summary_statistics, h, popVar_nil]
    · simp [create_batch_result, batchSummary, uce_summary_statistics, h]
  · intro hlen
    rcases model_scores with _ | ⟨p, rest⟩
    · simp [create_batch_result, batchSummary, uce_summary_statistics]
    · rcases rest with _ | ⟨q, rest2⟩
      · simp [create_batch_result, batchSummary, uce_summary_statistics,
          popVar_singleton]
      · simp at hlen

/-- C5, counterexample: for model scores `{a: 0.0, b: 1.0}` the batch summary's
standard deviation squared is `popVar [0,1] = 1/4` (so the reported `std_dev`
is `0.5`), whereas the claimed sample standard deviation squares to
`sampleVar [0,1] = 1/2` (`stdev = 0.7071...`); `1/4 ≠ 1/2`, and `√` is
injective on non-negative rationals, so the reported value is not the sample
standard deviation. -/
theorem batch_std_not_sample :
    (create_batch_result [("a", 0), ("b", 1)]).summary.stdSq = 1 / 4 ∧
    sampleVar [0, 1] = 1 / 2 ∧ ((1 : ℚ) / 4 ≠ 1 / 2) := by
  refine ⟨?_, ?_, by norm_num⟩
  · simp [create_batch_result, batchSummary, uce_summary_statistics, popVar, listMean]
    norm_num
  · simp [sampleVar, listMean]
    norm_num

/-- C5 witness: the theorem applied to a one-model batch, discharging the
`N ≤ 1` hypothesis. -/
theorem batch_std_is_population_witness :
    (create_batch_result [("a", (1 : ℚ) / 2)]).summary.stdSq = 0 :=
  (batch_std_is_population [("a", (1 : ℚ) / 2)]).2 (by decide)

theorem lookupPairs_eq_map (file_matches : List (String × FileMatchResult)) :
    ∀ (file_results : List (String × EvaluationResult)),
    (∀ kv ∈ file_results, (dictLookup file_matches kv.1).isSome = true) →
    lookupPairs file_matches file_results =
    some (file_results.map (fun kv => (kv.2.overall_similarity,
      (((dictLookup file_matches kv.1).map FileMatchResult.confidence).getD 0)))) := by
  intro file_results
  induction file_results with
  | nil =>
    intro _
    simp [lookupPairs]
  | cons kv rest ih =>
    intro h
    have hkv := h kv (List.mem_cons_self _ _)
    rcases hlk : dictLookup file_matches kv.1 with _ | mr
    · rw [hlk] at hkv
      simp at hkv
    · have hrest : ∀ x ∈ rest, (dictLookup file_matches x.1).isSome = true :=
        fun x hx => h x (List.mem_cons_of_mem _ hx)
      simp [lookupPairs, hlk, ih hrest]

/-- C8: the application-level overall score is the confidence-weighted mean
`Σ(overall_similarity_i × confidence_i) / Σ(confidence_i)` over the evaluated
files (with the division guarded by `safe_divide`, so a zero total weight
yields the 0.0 default), and it is 0.0 when no files were evaluated.  A file
with confidence 0 contributes 0 to the numerator and 0 to the denominator. -/
theorem weighted_score_is_confidence_weighted_mean
    (file_results : List (String × EvaluationResult))
    (file_matches : List (String × FileMatchResult))
    (h : ∀ kv ∈ file_results, (dictLookup file_matches kv.1).isSome = true) :
    calculate_weighted_score file_results file_matches =
      some (safe_divide (weightedSumSpec file_results file_matches)
        (weightTotalSpec file_results file_matches) 0) ∧
    (file_results = [] → calculate_weighted_score file_results file_matches = some 0) ∧
    (weightTotalSpec file_results file_matches ≠ 0 →
      safe_divide (weightedSumSpec file_results file_matches)
        (weightTotalSpec file_results file_matches) 0 =
      weightedSumSpec file_results file_matches /
        weightTotalSpec file_results file_matches) := by
  refine ⟨?_, ?_, ?_⟩
  · by_cases hnil : file_results = []
    · subst hnil
      simp [calculate_weighted_score, weightedSumSpec, weightTotalSpec, safe_divide]
    · unfold calculate_weighted_score
      rw [if_neg hnil, lookupPairs_eq_map file_matches file_results h]
      rw [Option.map_some']
      congr 1
      unfold safe_divide weightedSumSpec weightTotalSpec
      rw [List.map_map, List.map_map]
      rfl
  · intro hnil
    subst hnil
    simp [calculate_weighted_score]
  · intro hW
    simp [safe_divide, hW]

/-- Concrete file results for the C8 witness: scores 0.8 and 0.2. -/
def frC8 : List (String × EvaluationResult) :=
  [("f1", ⟨8 / 10, 0, 0, 0, 0, 0, 0, 0, 0⟩), ("f2", ⟨2 / 10, 0, 0, 0, 0, 0, 0, 0, 0⟩)]

/-- Concrete matches for the C8 witness: confidences 1.0 and 0.0. -/
def fmC8 : List (String × FileMatchResult) :=
  [("f1", ⟨"f1", "a", 1, "exact_name"⟩), ("f2", ⟨"f2", "b", 0, "content_similarity"⟩)]

/-- C8 witness: with confidences 1.0 and 0.0 and scores 0.8 and 0.2 the
aggregate equals 0.8 — the zero-confidence file contributes nothing to
numerator or denominator. -/
theorem weighted_score_witness :
    calculate_weighted_score frC8 fmC8 = some (8 / 10) := by
  have hsome : ∀ kv ∈ frC8, (dictLookup fmC8 kv.1).isSome = true := by
    intro kv hkv
    simp only [frC8, List.mem_cons, List.not_mem_nil, or_false] at hkv
    rcases hkv with rfl | rfl <;> simp [fmC8, dictLookup]
  have h := (weighted_score_is_confidence_weighted_mean frC8 fmC8 hsome).1
  rw [h]
  have hS : weightedSumSpec frC8 fmC8 = 8 / 10 := by
    simp [weightedSumSpec, frC8, fmC8, dictLookup]
  have hW : weightTotalSpec frC8 fmC8 = 1 := by
    simp [weightTotalSpec, frC8, fmC8, dictLookup]
  rw [hS, hW]
  norm_num [safe_divide]

theorem assoc_unique {α : Type} {l : List (String × α)}
    (h : (l.map Prod.fst).Nodup) {k : String} {v1 v2 : α}
    (h1 : (k, v1) ∈ l) (h2 : (k, v2) ∈ l) : v1 = v2 := by
  induction l with
  | nil => cases h1
  | cons p rest ih =>
    rw [List.map_cons] at h
    have hh := List.nodup_cons.mp h
    rcases List.mem_cons.mp h1 with e1 | m1 <;> rcases List.mem_cons.mp h2 with e2 | m2
    · rw [← e1] at e2
      injection e2 with _ hv
      exact hv.symm
    · exfalso
      apply hh.1
      rw [← e1]
      exact List.mem_map.mpr ⟨(k, v2), m2, rfl⟩
    · exfalso
      apply hh.1
      rw [← e2]
      exact List.mem_map.mpr ⟨(k, v1), m1, rfl⟩
    · exact ih hh.2 m1 m2

theorem evaluate_all_models_mem (evalModel : String → Except String ℚ) :
    ∀ (models : List (String × String)) (nm : String) (s : ℚ),
    (nm, s) ∈ evaluate_all_models evalModel models →
    ∃ path, (nm, path) ∈ models ∧ evalModel path = .ok s := by
  intro models
  induction models with
  | nil =>
    intro nm s h
    simp [evaluate_all_models] at h
  | cons m rest ih =>
    intro nm s h
    rcases m with ⟨nm0, path0⟩
    rcases he : evalModel path0 with err | s0 <;>
      simp only [evaluate_all_models, he] at h
    · rcases ih nm s h with ⟨path, hp, hok⟩
      exact ⟨path, List.mem_cons_of_mem _ hp, hok⟩
    · rcases List.mem_cons.mp h with heq | hrest
      · injection heq with h1 h2
        subst h1
        subst h2
        exact ⟨path0, List.mem_cons_self _ _, he⟩
      · rcases ih nm s hrest with ⟨path, hp, hok⟩
        exact ⟨path, List.mem_cons_of_mem _ hp, hok⟩

theorem evaluate_all_models_ok (evalModel : String → Except String ℚ) :
    ∀ (models : List (String × String)) (nm path : String) (s : ℚ),
    (nm, path) ∈ models → evalModel path = .ok s →
    (nm, s) ∈ evaluate_all_models evalModel models := by
  intro models
  induction models with
  | nil =>
    intro nm path s h
    cases h
  | cons m rest ih =>
    intro nm path s hmem hok
    rcases m with ⟨nm0, path0⟩
    rcases List.mem_cons.mp hmem with heq | hrest
    · injection heq with h1 h2
      subst h1
      subst h2
      simp only [evaluate_all_models, hok]
      exact List.mem_cons_self _ _
    · rcases he : evalModel path0 with err | s0 <;>
        simp only [evaluate_all_models, he]
      · exact ih nm path s hrest hok
      · exact List.mem_cons_of_mem _ (ih nm path s hrest hok)

theorem evaluate_all_models_length (evalModel : String → Except String ℚ) :
    ∀ (models : List (String × String)),
    (evaluate_all_models evalModel models).length =
      (models.filter (fun m => (evalModel m.2).isOk)).length := by
  intro models
  induction models with
  | nil => rfl
  | cons m rest ih =>
    rcases m with ⟨nm0, path0⟩
    rcases he : evalModel path0 with err | s0 <;>
      simp only [evaluate_all_models, he, List.filter_cons] <;>
      simp [Except.isOk, Except.toBool, he, ih]

/-- C9: a model whose evaluation raises is absent from the scored map
(`modelScores`) and from the rankings — never recorded with score 0.0 — while
every model whose evaluation succeeds is still scored with its own score; the
scored map has exactly one entry per successfully evaluated model. -/
theorem batch_excludes_failing_models (evalModel : String → Except String ℚ)
    (models : List (String × String)) (hn : (models.map Prod.fst).Nodup) :
    (∀ nm path, (nm, path) ∈ models → (evalModel path).isOk = false →
      nm ∉ (evaluate_all_models evalModel models).map Prod.fst ∧
      nm ∉ (create_batch_result (evaluate_all_models evalModel models)).rankings.map
        Prod.fst) ∧
    (∀ nm path s, (nm, path) ∈ models → evalModel path = .ok s →
      (nm, s) ∈ evaluate_all_models evalModel models ∧
      (nm, s) ∈ (create_batch_result (evaluate_all_models evalModel models)).rankings) ∧
    (evaluate_all_models evalModel models).length =
      (models.filter (fun m => (evalModel m.2).isOk)).length := by
  have hperm : ((evaluate_all_models evalModel models).mergeSort
      (fun a b => decide (b.2 ≤ a.2))).Perm (evaluate_all_models evalModel models) :=
    List.mergeSort_perm _ _
  refine ⟨?_, ?_, evaluate_all_models_length evalModel models⟩
  · intro nm path hmem hfail
    have hnot : nm ∉ (evaluate_all_models evalModel models).map Prod.fst := by
      intro hin
      rcases List.mem_map.mp hin with ⟨⟨nm', s⟩, hkv, hfst⟩
      simp only at hfst
      rw [hfst] at hkv
      rcases evaluate_all_models_mem evalModel models nm s hkv with ⟨path', hp', hok'⟩
      have : path = path' := by
        have := assoc_unique hn hmem hp'
        exact this
      rw [this, hok'] at hfail
      simp [Except.isOk, Except.toBool] at hfail
    refine ⟨hnot, ?_⟩
    intro hin
    apply hnot
    have := (hperm.map Prod.fst).mem_iff.mp hin
    exact this
  · intro nm path s hmem hok
    have hres := evaluate_all_models_ok evalModel models nm path s hmem hok
    exact ⟨hres, hperm.mem_iff.mpr hres⟩

/-- Concrete three-model batch for the C9 witness; model `m2` throws. -/
def modelsC9 : List (String × String) := [("m1", "p1"), ("m2", "bad"), ("m3", "p3")]

def evalC9 : String → Except String ℚ :=
  fun p => if p = "bad" then .error "boom" else .ok (1 / 2)

/-- C9 witness: with three models of which one throws, the failing model is
absent from the scored map and the rankings, and `modelScores` has exactly two
entries. -/
theorem batch_excludes_failing_models_witness :
    "m2" ∉ (evaluate_all_models evalC9 modelsC9).map Prod.fst ∧
    "m2" ∉ (create_batch_result (evaluate_all_models evalC9 modelsC9)).rankings.map
      Prod.fst ∧
    (evaluate_all_models evalC9 modelsC9).length = 2 := by
  have h := batch_excludes_failing_models evalC9 modelsC9 (by decide)
  have h1 := h.1 "m2" "bad" (by decide) (by decide)
  refine ⟨h1.1, h1.2, ?_⟩
  rw [h.2.2]
  decide

/-- All eight bounded score fields of an `EvaluationResult` lie in `[0, 1]`
(`complexity_delta` is the only exempt field). -/
def Bounded (r : EvaluationResult) : Prop :=
  (0 ≤ r.overall_similarity ∧ r.overall_similarity ≤ 1) ∧
  (0 ≤ r.functional_equivalence ∧ r.functional_equivalence ≤ 1) ∧
  (0 ≤ r.structural_similarity ∧ r.structural_similarity ≤ 1) ∧
  (0 ≤ r.style_consistency ∧ r.style_consistency ≤ 1) ∧
  (0 ≤ r.performance_impact ∧ r.performance_impact ≤ 1) ∧
  (0 ≤ r.maintainability_score ∧ r.maintainability_score ≤ 1) ∧
  (0 ≤ r.accessibility_score ∧ r.accessibility_score ≤ 1) ∧
  (0 ≤ r.security_score ∧ r.security_score ≤ 1)

theorem calculate_average_metric_mem (vals : List ℚ)
    (h : ∀ v ∈ vals, 0 ≤ v ∧ v ≤ 1) :
    0 ≤ calculate_average_metric vals ∧ calculate_average_metric vals ≤ 1 := by
  unfold calculate_average_metric
  split
  next => norm_num
  next hne =>
    have hn : 0 < (vals.length : ℚ) := by
      have := List.length_pos.mpr hne
      exact_mod_cast this
    constructor
    · exact div_nonneg (List.sum_nonneg fun x hx => (h x hx).1) (le_of_lt hn)
    · rw [div_le_one hn]
      calc vals.sum ≤ vals.length • (1 : ℚ) :=
            List.sum_le_card_nsmul _ _ fun x hx => (h x hx).2
        _ = vals.length := by simp

theorem mkEvaluationResult_ok (os fe ss sc cd pi ms as_ sec : ℚ)
    (h1 : 0 ≤ os ∧ os ≤ 1) (h2 : 0 ≤ fe ∧ fe ≤ 1) (h3 : 0 ≤ ss ∧ ss ≤ 1)
    (h4 : 0 ≤ sc ∧ sc ≤ 1) (h5 : 0 ≤ ms ∧ ms ≤ 1) (h6 : 0 ≤ as_ ∧ as_ ≤ 1)
    (h7 : 0 ≤ sec ∧ sec ≤ 1) :
    (mkEvaluationResult os fe ss sc cd pi ms as_ sec).isOk = true := by
  unfold mkEvaluationResult
  have hv : EvaluationResult.validate ⟨os, fe, ss, sc, cd, pi, ms, as_, sec⟩ = true :=
    (validate_iff _).mpr ⟨h1, h2, h3, h4, h5, h6, h7⟩
  simp [hv, Except.isOk, Except.toBool]

/-- C10: for every `EvaluationResult` whose bounded fields lie in `[0,1]` and
every match confidence in `[0,1]`, any tier's strategy adjustment (`direct`,
`semantic`, `structural`, `functional` — indeed any strategy string) leaves
every bounded field in `[0,1]` (the discount only ever multiplies a field by a
factor in `[0,1]`), the adjusted result still passes the `__post_init__`
bounds check, and the aggregate `EvaluationResult` built from a
confidence-weighted overall score in `[0,1]` and per-field unweighted means of
adjusted per-file results always constructs successfully. -/
theorem strategy_adjustments_preserve_bounds (r : EvaluationResult)
    (strategy : String) (c : ℚ) (hr : Bounded r) (hc : 0 ≤ c ∧ c ≤ 1) :
    Bounded (apply_strategy_adjustments r strategy c) ∧
    (apply_strategy_adjustments r strategy c).validate = true ∧
    (∀ (results : List EvaluationResult) (overall : ℚ),
      (∀ x ∈ results, Bounded x) → 0 ≤ overall → overall ≤ 1 →
      (mkEvaluationResult overall
        (calculate_average_metric (results.map EvaluationResult.functional_equivalence))
        (calculate_average_metric (results.map EvaluationResult.structural_similarity))
        (calculate_average_metric (results.map EvaluationResult.style_consistency))
        (calculate_average_metric (results.map EvaluationResult.complexity_delta))
        (calculate_average_metric (results.map EvaluationResult.performance_impact))
        (calculate_average_metric (results.map EvaluationResult.maintainability_score))
        (calculate_average_metric (results.map EvaluationResult.accessibility_score))
        (calculate_average_metric (results.map EvaluationResult.security_score))).isOk =
        true) := by
  obtain ⟨b1, b2, b3, b4, b5, b6, b7, b8⟩ := hr
  have hmul : ∀ a : ℚ, 0 ≤ a ∧ a ≤ 1 → 0 ≤ a * c ∧ a * c ≤ 1 := fun a ha =>
    ⟨mul_nonneg ha.1 hc.1, mul_le_one₀ ha.2 hc.1 hc.2⟩
  have hB : Bounded (apply_strategy_adjustments r strategy c) := by
    unfold apply_strategy_adjustments
    split_ifs
    · exact ⟨hmul _ b1, b2, b3, b4, b5, b6, b7, b8⟩
    · exact ⟨b1, b2, hmul _ b3, b4, b5, b6, b7, b8⟩
    · exact ⟨hmul _ b1, hmul _ b2, b3, b4, b5, b6, b7, b8⟩
    · exact ⟨b1, b2, b3, b4, b5, b6, b7, b8⟩
  obtain ⟨a1, a2, a3, a4, a5, a6, a7, a8⟩ := hB
  refine ⟨⟨a1, a2, a3, a4, a5, a6, a7, a8⟩, ?_, ?_⟩
  · exact (validate_iff _).mpr ⟨a1, a2, a3, a4, a6, a7, a8⟩
  · intro results overall hres h0 h1
    refine mkEvaluationResult_ok _ _ _ _ _ _ _ _ _ ⟨h0, h1⟩ ?_ ?_ ?_ ?_ ?_ ?_
    · exact calculate_average_metric_mem _ (by
        intro v hv
        rcases List.mem_map.mp hv with ⟨x, hx, he⟩
        rw [← he]
        exact (hres x hx).2.1)
    · exact calculate_average_metric_mem _ (by
        intro v hv
        rcases List.mem_map.mp hv with ⟨x, hx, he⟩
        rw [← he]
        exact (hres x hx).2.2.1)
    · exact calculate_average_metric_mem _ (by
        intro v hv
        rcases List.mem_map.mp hv with ⟨x, hx, he⟩
        rw [← he]
        exact (hres x hx).2.2.2.1)
    · exact calculate_average_metric_mem _ (by
        intro v hv
        rcases List.mem_map.mp hv with ⟨x, hx, he⟩
        rw [← he]
        exact (hres x hx).2.2.2.2.2.1)
    · exact calculate_average_metric_mem _ (by
        intro v hv
        rcases List.mem_map.mp hv with ⟨x, hx, he⟩
        rw [← he]
        exact (hres x hx).2.2.2.2.2.2.1)
    · exact calculate_average_metric_mem _ (by
        intro v hv
        rcases List.mem_map.mp hv with ⟨x, hx, he⟩
        rw [← he]
        exact (hres x hx).2.2.2.2.2.2.2)

/-- Concrete per-file result for the C10 witness. -/
def rC10 : EvaluationResult :=
  ⟨1 / 2, 1 / 2, 1 / 2, 1 / 2, -3, 1 / 2, 1 / 2, 1 / 2, 1 / 2⟩

/-- C10 witness: the theorem applied to a concrete result with all bounded
fields 0.5 (and an out-of-range `complexity_delta`, which is exempt), the
`semantic` tier at confidence 0.5, and a one-element aggregate. -/
theorem strategy_adjustments_preserve_bounds_witness :
    Bounded (apply_strategy_adjustments rC10 "semantic" (1 / 2)) ∧
    (apply_strategy_adjustments rC10 "semantic" (1 / 2)).validate = true ∧
    (mkEvaluationResult (1 / 2)
      (calculate_average_metric ([rC10].map EvaluationResult.functional_equivalence))
      (calculate_average_metric ([rC10].map EvaluationResult.structural_similarity))
      (calculate_average_metric ([rC10].map EvaluationResult.style_consistency))
      (calculate_average_metric ([rC10].map EvaluationResult.complexity_delta))
      (calculate_average_metric ([rC10].map EvaluationResult.performance_impact))
      (calculate_average_metric ([rC10].map EvaluationResult.maintainability_score))
      (calculate_average_metric ([rC10].map EvaluationResult.accessibility_score))
      (calculate_average_metric ([rC10].map EvaluationResult.security_score))).isOk =
      true := by
  have hb : Bounded rC10 := by
    unfold Bounded rC10
    norm_num
  have h := strategy_adjustments_preserve_bounds rC10 "semantic" (1 / 2) hb
    (by norm_num)
  refine ⟨h.1, h.2.1, ?_⟩
  refine h.2.2 [rC10] (1 / 2) ?_ (by norm_num) (by norm_num)
  intro x hx
  have : x = rC10 := by simpa using hx
  rw [this]
  exact hb
